import Mathlib

/-!
Verification of the wlroots scene-graph core (src/types/scene/wlr_scene.c).

The data model and the operations below are shallow embeddings of the C
functions of that file: integer coordinates become `Int`, the 64-bit
`active_outputs` bitset becomes a `Nat` (all indices are below 64 by the
creation-time assertion, so no overflow can occur), floating-point source
boxes become rational boxes, fallible allocation and assertion failure
become `Option`, and signal emission becomes an explicit event list.
-/

/-- Axis-aligned integer box (struct wlr_box). -/
structure Box where
  x : Int
  y : Int
  width : Int
  height : Int
deriving DecidableEq

/-- Modelled from the spec: wlr_box_empty, the box utility declared outside
src/. A box is empty when its width or height is non-positive. -/
def wlr_box_empty (b : Box) : Bool :=
  decide (b.width ≤ 0) || decide (b.height ≤ 0)

/-- Modelled from the spec: wlr_box_intersection, the box utility declared
outside src/. The C function writes the clipped box to `dest` and returns
whether it is non-empty; we model the pair as an `Option Box` (`none` for
the false result, where the claims only look at the boolean). -/
def wlr_box_intersection (a b : Box) : Option Box :=
  if wlr_box_empty a || wlr_box_empty b then none
  else
    let x1 := max a.x b.x
    let y1 := max a.y b.y
    let x2 := min (a.x + a.width) (b.x + b.width)
    let y2 := min (a.y + a.height) (b.y + b.height)
    let dest : Box := { x := x1, y := y1, width := x2 - x1, height := y2 - y1 }
    if wlr_box_empty dest then none else some dest

/-- Floating-point box (struct wlr_fbox), with coordinates modelled as
rationals so that emptiness and memcmp-style equality are decidable. -/
structure FBox where
  x : Rat
  y : Rat
  width : Rat
  height : Rat
deriving DecidableEq

/-- Modelled from the spec: wlr_fbox_empty on a (never-null) fbox value. -/
def fbox_empty_val (b : FBox) : Bool :=
  decide (b.width ≤ 0) || decide (b.height ≤ 0)

/-- Modelled from the spec: wlr_fbox_empty on a possibly-null fbox pointer
(a NULL box counts as empty). -/
def wlr_fbox_empty : Option FBox → Bool
  | none => true
  | some b => fbox_empty_val b

/-- The all-zero fbox that `memset(cur, 0, sizeof(*cur))` produces. -/
def fbox_zero : FBox := { x := 0, y := 0, width := 0, height := 0 }

/-- A platform buffer (struct wlr_buffer): reference identity plus the
intrinsic size. Structural equality stands in for pointer identity. -/
structure WlrBuffer where
  id : Nat
  width : Int
  height : Int
deriving DecidableEq

/-- Bit 0 of enum wl_output_transform distinguishes the four transforms
that contain a 90-degree rotation. -/
def WL_OUTPUT_TRANSFORM_90 : Nat := 1

/-- One scene-output (struct wlr_scene_output). `effWidth`/`effHeight`
model wlr_output_effective_resolution of the underlying output and
`transform` the output's transform; both live in the external output
abstraction, so they are carried as plain fields here. -/
structure SceneOutput where
  index : Nat
  x : Int
  y : Int
  effWidth : Int
  effHeight : Int
  transform : Nat
deriving DecidableEq

/-- The buffer-specific part of struct wlr_scene_buffer. The derived
texture is opaque, so it is modelled by an optional tag. -/
structure SceneBuffer where
  buffer : Option WlrBuffer
  texture : Option Nat
  srcBox : FBox
  dstWidth : Int
  dstHeight : Int
  transform : Nat
  activeOutputs : Nat
  primaryOutput : Option SceneOutput
deriving DecidableEq

/-- The common node header (struct wlr_scene_node): identity, position
relative to the parent, and the enabled flag. -/
structure NodeHeader where
  id : Nat
  x : Int
  y : Int
  enabled : Bool
deriving DecidableEq

/-- The rect-specific part of struct wlr_scene_rect (size and RGBA color). -/
structure RectFields where
  width : Int
  height : Int
  color : Rat × Rat × Rat × Rat
deriving DecidableEq

/-- A scene node: the tagged sum of the three node kinds, with the child
list nested in the tree variant. -/
inductive SceneNode where
  | tree (header : NodeHeader) (children : List SceneNode)
  | rect (header : NodeHeader) (fields : RectFields)
  | buffer (header : NodeHeader) (sb : SceneBuffer)

/-- The common header of any node. -/
def nodeHeader : SceneNode → NodeHeader
  | SceneNode.tree h _ => h
  | SceneNode.rect h _ => h
  | SceneNode.buffer h _ => h

/-- The buffer case of scene_node_get_size (lines 517-531): the explicit
destination size when both components are positive, else the intrinsic
buffer size with width/height swapped under a 90-degree rotation, else
zero when there is no buffer. -/
def scene_buffer_size (sb : SceneBuffer) : Int × Int :=
  if sb.dstWidth > 0 ∧ sb.dstHeight > 0 then (sb.dstWidth, sb.dstHeight)
  else
    match sb.buffer with
    | some buf =>
      if sb.transform &&& WL_OUTPUT_TRANSFORM_90 ≠ 0 then (buf.height, buf.width)
      else (buf.width, buf.height)
    | none => (0, 0)

/-- scene_node_get_size (lines 504-533): trees have no size of their own,
rects use their stored size, buffers use `scene_buffer_size`. -/
def scene_node_get_size : SceneNode → Int × Int
  | SceneNode.tree _ _ => (0, 0)
  | SceneNode.rect _ f => (f.width, f.height)
  | SceneNode.buffer _ sb => scene_buffer_size sb

/-- Claim C10: scene_node_get_size uses a buffer node's explicit
destination size only when dst_width and dst_height are both strictly
positive; whenever that conjunction fails (exactly one positive, both
zero, or negative) the size falls back to the buffer's intrinsic size
with width and height swapped when the transform contains a 90-degree
rotation, and to (0, 0) when the buffer is null. -/
theorem c10_get_size_dest_only_when_both_positive (h : NodeHeader) (sb : SceneBuffer) :
    (sb.dstWidth > 0 ∧ sb.dstHeight > 0 →
      scene_node_get_size (SceneNode.buffer h sb) = (sb.dstWidth, sb.dstHeight)) ∧
    (¬ (sb.dstWidth > 0 ∧ sb.dstHeight > 0) →
      (∀ buf, sb.buffer = some buf →
        scene_node_get_size (SceneNode.buffer h sb) =
          (if sb.transform &&& WL_OUTPUT_TRANSFORM_90 ≠ 0 then (buf.height, buf.width)
           else (buf.width, buf.height))) ∧
      (sb.buffer = none → scene_node_get_size (SceneNode.buffer h sb) = (0, 0))) := by
  refine ⟨fun hpos => ?_, fun hneg => ⟨fun buf hbuf => ?_, fun hnone => ?_⟩⟩
  · simp [scene_node_get_size, scene_buffer_size, hpos]
  · simp [scene_node_get_size, scene_buffer_size, hneg, hbuf]
  · simp [scene_node_get_size, scene_buffer_size, hneg, hnone]

/-- Witness for C10 at a concrete input: destination 5×0 is not used, the
90-degree transform swaps the intrinsic 10×20 buffer size to (20, 10). -/
theorem c10_get_size_dest_only_when_both_positive_witness :
    scene_node_get_size
      (SceneNode.buffer ⟨1, 0, 0, true⟩
        { buffer := some ⟨7, 10, 20⟩, texture := none, srcBox := fbox_zero,
          dstWidth := 5, dstHeight := 0, transform := 1,
          activeOutputs := 0, primaryOutput := none }) = (20, 10) := by
  have := (c10_get_size_dest_only_when_both_positive ⟨1, 0, 0, true⟩
    { buffer := some ⟨7, 10, 20⟩, texture := none, srcBox := fbox_zero,
      dstWidth := 5, dstHeight := 0, transform := 1,
      activeOutputs := 0, primaryOutput := none }).2 (by decide)
  simpa using this.1 ⟨7, 10, 20⟩ rfl

/-- The viewport box of a scene-output: layout position plus effective
resolution (lines 222-227 and 1120-1122). -/
def output_box (o : SceneOutput) : Box :=
  { x := o.x, y := o.y, width := o.effWidth, height := o.effHeight }

/-- The scene-space box of a buffer node placed at absolute (lx, ly)
(lines 202-203). -/
def scene_buffer_box (sb : SceneBuffer) (lx ly : Int) : Box :=
  { x := lx, y := ly, width := (scene_buffer_size sb).1, height := (scene_buffer_size sb).2 }

/-- Whether the buffer box intersects the output's viewport. -/
def intersectsOut (bb : Box) (o : SceneOutput) : Bool :=
  (wlr_box_intersection bb (output_box o)).isSome

/-- The overlap area of the buffer box with the output's viewport (zero
when they do not intersect). -/
def overlapOut (bb : Box) (o : SceneOutput) : Int :=
  match wlr_box_intersection bb (output_box o) with
  | none => 0
  | some inter => inter.width * inter.height

/-- The running state of the first loop of scene_buffer_update_outputs:
largest overlap so far, primary output so far, bitset so far. -/
structure Pass1Acc where
  largest_overlap : Int
  primary_output : Option SceneOutput
  active_outputs : Nat
deriving DecidableEq

/-- One iteration of the first loop of scene_buffer_update_outputs
(lines 217-241): skip the ignored output, intersect with the viewport,
take the output as primary when its overlap strictly beats the largest
seen so far, and record the output's bit. The C compares scene-output
pointers with `ignore`; outputs are identified here by their (unique)
index. -/
def pass1_step (bb : Box) (ignore : Option Nat) (acc : Pass1Acc) (o : SceneOutput) : Pass1Acc :=
  if ignore = some o.index then acc
  else
    match wlr_box_intersection bb (output_box o) with
    | none => acc
    | some inter =>
      let overlap := inter.width * inter.height
      let acc1 :=
        if acc.largest_overlap < overlap then
          { acc with largest_overlap := overlap, primary_output := some o }
        else acc
      { acc1 with active_outputs := acc1.active_outputs ||| (1 <<< o.index) }

/-- The first loop of scene_buffer_update_outputs, started from
largest_overlap = 0, primary_output = NULL, active_outputs = 0
(lines 205-241). -/
def pass1 (bb : Box) (ignore : Option Nat) (outputs : List SceneOutput) : Pass1Acc :=
  outputs.foldl (pass1_step bb ignore) ⟨0, none, 0⟩

/-- An output_enter / output_leave emission of a buffer node. -/
inductive BufEvent where
  | enter (o : SceneOutput)
  | leave (o : SceneOutput)
deriving DecidableEq

/-- The second loop of scene_buffer_update_outputs (lines 246-256): one
enter per bit newly set, one leave per bit newly cleared, iterating the
outputs list. -/
def pass2 (old_active active : Nat) (outputs : List SceneOutput) : List BufEvent :=
  outputs.filterMap (fun o =>
    let mask := 1 <<< o.index
    if active &&& mask ≠ 0 ∧ ¬ old_active &&& mask ≠ 0 then some (BufEvent.enter o)
    else if ¬ active &&& mask ≠ 0 ∧ old_active &&& mask ≠ 0 then some (BufEvent.leave o)
    else none)

/-- scene_buffer_update_outputs (lines 199-257): recompute the primary
output and the active bitset over all outputs, store them, then emit the
enter/leave diff. Returns the updated buffer fields and the emitted
events in order. -/
def scene_buffer_update_outputs (sb : SceneBuffer) (lx ly : Int)
    (outputs : List SceneOutput) (ignore : Option Nat) :
    SceneBuffer × List BufEvent :=
  let bb := scene_buffer_box sb lx ly
  let acc := pass1 bb ignore outputs
  let old_active := sb.activeOutputs
  let sb1 := { sb with primaryOutput := acc.primary_output, activeOutputs := acc.active_outputs }
  (sb1, pass2 old_active acc.active_outputs outputs)

/-- The state of the emission loop as executed: the buffer fields as they
stand, plus the trace of emissions, each paired with a snapshot of the
buffer fields at the moment the signal fired. -/
structure EmitState where
  buf : SceneBuffer
  trace : List (SceneBuffer × BufEvent)
deriving DecidableEq

/-- The second loop of scene_buffer_update_outputs as executed: it walks
the outputs reading the stored buffer fields, appending each emission to
the trace together with a snapshot of the buffer fields at the moment
the signal fires. -/
def pass2_exec (old_active active : Nat) (outputs : List SceneOutput) (s : EmitState) : EmitState :=
  outputs.foldl (fun s o =>
      let mask := 1 <<< o.index
      if active &&& mask ≠ 0 ∧ ¬ old_active &&& mask ≠ 0 then
        { s with trace := s.trace ++ [(s.buf, BufEvent.enter o)] }
      else if ¬ active &&& mask ≠ 0 ∧ old_active &&& mask ≠ 0 then
        { s with trace := s.trace ++ [(s.buf, BufEvent.leave o)] }
      else s)
    s

/-- scene_buffer_update_outputs in statement order (for the temporal
claim): the first loop writes primary_output into the node and emits
nothing, active_outputs is assigned at line 244, and only then does the
second loop run, snapshotting the buffer fields at each emission. -/
def scene_buffer_update_outputs_exec (sb : SceneBuffer) (lx ly : Int)
    (outputs : List SceneOutput) (ignore : Option Nat) : EmitState :=
  let bb := scene_buffer_box sb lx ly
  let acc := pass1 bb ignore outputs
  let sb1 := { sb with primaryOutput := acc.primary_output }
  let old_active := sb1.activeOutputs
  let sb2 := { sb1 with activeOutputs := acc.active_outputs }
  pass2_exec old_active acc.active_outputs outputs { buf := sb2, trace := [] }

theorem wlr_box_intersection_some_not_empty {a b i : Box}
    (h : wlr_box_intersection a b = some i) : wlr_box_empty i = false := by
  unfold wlr_box_intersection at h
  split at h
  · exact absurd h (by simp)
  · dsimp only at h
    split at h
    · exact absurd h (by simp)
    · rename_i hne
      cases h
      exact Bool.eq_false_iff.mpr hne

theorem box_pos_of_not_empty {b : Box} (h : wlr_box_empty b = false) :
    0 < b.width ∧ 0 < b.height := by
  unfold wlr_box_empty at h
  simp only [Bool.or_eq_false_iff, decide_eq_false_iff_not, not_le] at h
  exact h

theorem intersectsOut_false_iff (bb : Box) (o : SceneOutput) :
    intersectsOut bb o = false ↔ wlr_box_intersection bb (output_box o) = none := by
  unfold intersectsOut
  cases h : wlr_box_intersection bb (output_box o) <;> simp [h]

theorem overlapOut_pos {bb : Box} {o : SceneOutput}
    (h : intersectsOut bb o = true) : 0 < overlapOut bb o := by
  unfold intersectsOut at h
  cases hi : wlr_box_intersection bb (output_box o) with
  | none => rw [hi] at h; simp at h
  | some i =>
    have hne := wlr_box_intersection_some_not_empty hi
    have hp := box_pos_of_not_empty hne
    unfold overlapOut
    rw [hi]
    exact mul_pos hp.1 hp.2

theorem overlapOut_eq_of_some {bb : Box} {o : SceneOutput} {i : Box}
    (h : wlr_box_intersection bb (output_box o) = some i) :
    overlapOut bb o = i.width * i.height := by
  unfold overlapOut
  rw [h]

theorem intersectsOut_true_of_some {bb : Box} {o : SceneOutput} {i : Box}
    (h : wlr_box_intersection bb (output_box o) = some i) :
    intersectsOut bb o = true := by
  unfold intersectsOut
  rw [h]
  rfl

theorem pass1_append (bb : Box) (ig : Option Nat) (xs : List SceneOutput) (x : SceneOutput) :
    pass1 bb ig (xs ++ [x]) = pass1_step bb ig (pass1 bb ig xs) x := by
  simp [pass1, List.foldl_append]

theorem pass1_step_active (bb : Box) (ig : Option Nat) (acc : Pass1Acc) (x : SceneOutput) :
    (pass1_step bb ig acc x).active_outputs =
      if ig = some x.index ∨ wlr_box_intersection bb (output_box x) = none then
        acc.active_outputs
      else acc.active_outputs ||| (1 <<< x.index) := by
  unfold pass1_step
  by_cases hig : ig = some x.index
  · simp [hig]
  · rw [if_neg hig]
    cases hi : wlr_box_intersection bb (output_box x) with
    | none => simp [hig, hi]
    | some inter =>
      rw [if_neg (show ¬ (ig = some x.index ∨ (some inter : Option Box) = none) by simp [hig])]
      dsimp only
      split <;> rfl

/-- Characterization of the bitset computed by the first loop: bit i is
set exactly when some non-ignored output of index i intersects the
buffer box. -/
theorem pass1_testBit (bb : Box) (ig : Option Nat) (outputs : List SceneOutput) (i : Nat) :
    (pass1 bb ig outputs).active_outputs.testBit i = true ↔
      ∃ o, o ∈ outputs ∧ ig ≠ some o.index ∧ o.index = i ∧ intersectsOut bb o = true := by
  induction outputs using List.reverseRecOn with
  | nil => simp [pass1, Nat.zero_testBit]
  | append_singleton xs x ih =>
    rw [pass1_append, pass1_step_active]
    split
    · rename_i hskip
      rw [ih]
      constructor
      · rintro ⟨o, ho, h1, h2, h3⟩
        exact ⟨o, by simp [ho], h1, h2, h3⟩
      · rintro ⟨o, ho, h1, h2, h3⟩
        rcases List.mem_append.mp ho with ho' | ho'
        · exact ⟨o, ho', h1, h2, h3⟩
        · simp only [List.mem_singleton] at ho'
          subst ho'
          rcases hskip with hig | hnone
          · exact absurd hig h1
          · have hf : intersectsOut bb o = false := (intersectsOut_false_iff bb o).mpr hnone
            rw [h3] at hf
            exact absurd hf (by simp)
    · rename_i hgo
      push_neg at hgo
      obtain ⟨hig, hsome⟩ := hgo
      rw [Nat.testBit_or, Nat.one_shiftLeft]
      have h2p : (2 ^ x.index).testBit i = decide (x.index = i) := by
        rcases eq_or_ne x.index i with h | h
        · simp [h, Nat.testBit_two_pow_self]
        · simp [h, Nat.testBit_two_pow_of_ne h]
      rw [h2p]
      have hx : intersectsOut bb x = true := by
        unfold intersectsOut
        cases hi : wlr_box_intersection bb (output_box x)
        · exact absurd hi hsome
        · rfl
      constructor
      · intro hor
        rcases Bool.or_eq_true_iff.mp hor with hbit | hdec
        · obtain ⟨o, ho, h1, h2, h3⟩ := ih.mp hbit
          exact ⟨o, by simp [ho], h1, h2, h3⟩
        · exact ⟨x, by simp, hig, of_decide_eq_true hdec, hx⟩
      · rintro ⟨o, ho, h1, h2, h3⟩
        rcases List.mem_append.mp ho with ho' | ho'
        · exact Bool.or_eq_true_iff.mpr (Or.inl (ih.mpr ⟨o, ho', h1, h2, h3⟩))
        · simp only [List.mem_singleton] at ho'
          subst ho'
          exact Bool.or_eq_true_iff.mpr (Or.inr (decide_eq_true h2))

/-- Characterization of the primary output selected by the first loop:
it is absent exactly when no non-ignored output intersects, and
otherwise it is the earliest output attaining the maximum overlap, as
enforced by the strict `overlap > largest_overlap` comparison. -/
theorem pass1_primary_spec (bb : Box) (ig : Option Nat) (outputs : List SceneOutput) :
    ((pass1 bb ig outputs).primary_output = none →
       (pass1 bb ig outputs).largest_overlap = 0 ∧
       ∀ o ∈ outputs, ig ≠ some o.index → intersectsOut bb o = false) ∧
    (∀ q, (pass1 bb ig outputs).primary_output = some q →
       ∃ l1 l2, outputs = l1 ++ q :: l2 ∧ ig ≠ some q.index ∧ intersectsOut bb q = true ∧
         (pass1 bb ig outputs).largest_overlap = overlapOut bb q ∧
         (∀ o ∈ outputs, ig ≠ some o.index → intersectsOut bb o = true →
            overlapOut bb o ≤ overlapOut bb q) ∧
         (∀ o ∈ l1, ig ≠ some o.index → intersectsOut bb o = true →
            overlapOut bb o < overlapOut bb q)) := by
  induction outputs using List.reverseRecOn with
  | nil =>
    constructor
    · intro _
      exact ⟨rfl, by simp⟩
    · intro q hq
      simp [pass1] at hq
  | append_singleton xs x ih =>
    rw [pass1_append]
    by_cases hig : ig = some x.index
    · have hstep : pass1_step bb ig (pass1 bb ig xs) x = pass1 bb ig xs := by
        unfold pass1_step
        rw [if_pos hig]
      rw [hstep]
      constructor
      · intro hnone
        obtain ⟨hl, hall⟩ := ih.1 hnone
        refine ⟨hl, ?_⟩
        intro o ho hgo
        rcases List.mem_append.mp ho with h | h
        · exact hall o h hgo
        · simp only [List.mem_singleton] at h
          subst h
          exact absurd hig hgo
      · intro q hq
        obtain ⟨l1, l2, hdec, hq1, hq2, hq3, hq4, hq5⟩ := ih.2 q hq
        refine ⟨l1, l2 ++ [x], by rw [hdec]; simp, hq1, hq2, hq3, ?_, hq5⟩
        intro o ho hgo hio
        rcases List.mem_append.mp ho with h | h
        · exact hq4 o h hgo hio
        · simp only [List.mem_singleton] at h
          subst h
          exact absurd hig hgo
    · cases hi : wlr_box_intersection bb (output_box x) with
      | none =>
        have hxf : intersectsOut bb x = false := (intersectsOut_false_iff bb x).mpr hi
        have hstep : pass1_step bb ig (pass1 bb ig xs) x = pass1 bb ig xs := by
          unfold pass1_step
          rw [if_neg hig, hi]
        rw [hstep]
        constructor
        · intro hnone
          obtain ⟨hl, hall⟩ := ih.1 hnone
          refine ⟨hl, ?_⟩
          intro o ho hgo
          rcases List.mem_append.mp ho with h | h
          · exact hall o h hgo
          · simp only [List.mem_singleton] at h
            subst h
            exact hxf
        · intro q hq
          obtain ⟨l1, l2, hdec, hq1, hq2, hq3, hq4, hq5⟩ := ih.2 q hq
          refine ⟨l1, l2 ++ [x], by rw [hdec]; simp, hq1, hq2, hq3, ?_, hq5⟩
          intro o ho hgo hio
          rcases List.mem_append.mp ho with h | h
          · exact hq4 o h hgo hio
          · simp only [List.mem_singleton] at h
            subst h
            rw [hio] at hxf
            exact absurd hxf (by simp)
      | some inter =>
        have hx : intersectsOut bb x = true := intersectsOut_true_of_some hi
        have hov : overlapOut bb x = inter.width * inter.height := overlapOut_eq_of_some hi
        by_cases hlt : (pass1 bb ig xs).largest_overlap < inter.width * inter.height
        · have hstep_primary : (pass1_step bb ig (pass1 bb ig xs) x).primary_output = some x := by
            simp only [pass1_step, if_neg hig, hi, if_pos hlt]
          have hstep_largest :
              (pass1_step bb ig (pass1 bb ig xs) x).largest_overlap = inter.width * inter.height := by
            simp only [pass1_step, if_neg hig, hi, if_pos hlt]
          constructor
          · intro hnone
            rw [hstep_primary] at hnone
            exact absurd hnone (by simp)
          · intro q hq
            rw [hstep_primary] at hq
            obtain rfl : x = q := by injection hq
            refine ⟨xs, [], rfl, hig, hx, by rw [hstep_largest, hov], ?_, ?_⟩
            · intro o ho hgo hio
              rcases List.mem_append.mp ho with h | h
              · rcases hp : (pass1 bb ig xs).primary_output with _ | q0
                · obtain ⟨_, hall⟩ := ih.1 hp
                  rw [hall o h hgo] at hio
                  exact absurd hio (by simp)
                · obtain ⟨l1, l2, _, _, _, hq3, hq4, _⟩ := ih.2 q0 hp
                  have h1 : overlapOut bb o ≤ (pass1 bb ig xs).largest_overlap := by
                    rw [hq3]
                    exact hq4 o h hgo hio
                  rw [hov]
                  exact le_of_lt (lt_of_le_of_lt h1 hlt)
              · simp only [List.mem_singleton] at h
                subst h
                exact le_refl _
            · intro o ho hgo hio
              rcases hp : (pass1 bb ig xs).primary_output with _ | q0
              · obtain ⟨_, hall⟩ := ih.1 hp
                rw [hall o ho hgo] at hio
                exact absurd hio (by simp)
              · obtain ⟨l1, l2, _, _, _, hq3, hq4, _⟩ := ih.2 q0 hp
                have h1 : overlapOut bb o ≤ (pass1 bb ig xs).largest_overlap := by
                  rw [hq3]
                  exact hq4 o ho hgo hio
                rw [hov]
                exact lt_of_le_of_lt h1 hlt
        · have hstep_primary :
              (pass1_step bb ig (pass1 bb ig xs) x).primary_output = (pass1 bb ig xs).primary_output := by
            simp only [pass1_step, if_neg hig, hi, if_neg hlt]
          have hstep_largest :
              (pass1_step bb ig (pass1 bb ig xs) x).largest_overlap = (pass1 bb ig xs).largest_overlap := by
            simp only [pass1_step, if_neg hig, hi, if_neg hlt]
          constructor
          · intro hnone
            rw [hstep_primary] at hnone
            obtain ⟨hl0, _⟩ := ih.1 hnone
            rw [hl0] at hlt
            have hpos : 0 < inter.width * inter.height := by
              rw [← hov]
              exact overlapOut_pos hx
            exact absurd hpos hlt
          · intro q hq
            rw [hstep_primary] at hq
            obtain ⟨l1, l2, hdec, hq1, hq2, hq3, hq4, hq5⟩ := ih.2 q hq
            refine ⟨l1, l2 ++ [x], by rw [hdec]; simp, hq1, hq2, by rw [hstep_largest, hq3], ?_, hq5⟩
            intro o ho hgo hio
            rcases List.mem_append.mp ho with h | h
            · exact hq4 o h hgo hio
            · simp only [List.mem_singleton] at h
              subst h
              rw [hov]
              rw [hq3] at hlt
              exact le_of_not_lt hlt

theorem update_outputs_fst (sb : SceneBuffer) (lx ly : Int)
    (outputs : List SceneOutput) (ignore : Option Nat) :
    (scene_buffer_update_outputs sb lx ly outputs ignore).1 =
      { sb with
        primaryOutput := (pass1 (scene_buffer_box sb lx ly) ignore outputs).primary_output,
        activeOutputs := (pass1 (scene_buffer_box sb lx ly) ignore outputs).active_outputs } := rfl

theorem update_outputs_snd (sb : SceneBuffer) (lx ly : Int)
    (outputs : List SceneOutput) (ignore : Option Nat) :
    (scene_buffer_update_outputs sb lx ly outputs ignore).2 =
      pass2 sb.activeOutputs
        (pass1 (scene_buffer_box sb lx ly) ignore outputs).active_outputs outputs := rfl

/-- Claim C1: after a membership recomputation (as triggered by any
geometric mutation, all of which call scene_buffer_update_outputs with a
NULL `ignore`), bit o.index of the buffer's active_outputs is set iff
the buffer's scene-space box intersects o's viewport box; the primary
output is the intersecting output with the largest overlap area, with
ties broken in favor of the earliest output in the outputs list, and it
is null exactly when no output intersects. -/
theorem c1_active_outputs_and_primary (sb : SceneBuffer) (lx ly : Int)
    (outputs : List SceneOutput)
    (hNodup : (outputs.map SceneOutput.index).Nodup) :
    (∀ o ∈ outputs,
      ((scene_buffer_update_outputs sb lx ly outputs none).1).activeOutputs.testBit o.index =
        intersectsOut (scene_buffer_box sb lx ly) o) ∧
    (((scene_buffer_update_outputs sb lx ly outputs none).1).primaryOutput = none ↔
      ∀ o ∈ outputs, intersectsOut (scene_buffer_box sb lx ly) o = false) ∧
    (∀ q, ((scene_buffer_update_outputs sb lx ly outputs none).1).primaryOutput = some q →
      ∃ l1 l2, outputs = l1 ++ q :: l2 ∧
        intersectsOut (scene_buffer_box sb lx ly) q = true ∧
        (∀ o ∈ outputs, intersectsOut (scene_buffer_box sb lx ly) o = true →
          overlapOut (scene_buffer_box sb lx ly) o ≤ overlapOut (scene_buffer_box sb lx ly) q) ∧
        (∀ o ∈ l1, intersectsOut (scene_buffer_box sb lx ly) o = true →
          overlapOut (scene_buffer_box sb lx ly) o < overlapOut (scene_buffer_box sb lx ly) q)) := by
  rw [update_outputs_fst]
  refine ⟨?_, ?_, ?_⟩
  · intro o ho
    rcases hio : intersectsOut (scene_buffer_box sb lx ly) o with _ | _
    · rcases hbit : Nat.testBit (pass1 (scene_buffer_box sb lx ly) none outputs).active_outputs o.index with _ | _
      · rfl
      · obtain ⟨o', ho', _, hidx, hint⟩ :=
          (pass1_testBit (scene_buffer_box sb lx ly) none outputs o.index).mp hbit
        have : o' = o := List.inj_on_of_nodup_map hNodup ho' ho hidx
        subst this
        rw [hint] at hio
        exact hio
    · exact (pass1_testBit (scene_buffer_box sb lx ly) none outputs o.index).mpr
        ⟨o, ho, by simp, rfl, hio⟩
  · constructor
    · intro hnone o ho
      exact ((pass1_primary_spec (scene_buffer_box sb lx ly) none outputs).1 hnone).2 o ho (by simp)
    · intro hall
      rcases hp : (pass1 (scene_buffer_box sb lx ly) none outputs).primary_output with _ | q
      · rfl
      · obtain ⟨l1, l2, hdec, _, hq2, _, _, _⟩ :=
          (pass1_primary_spec (scene_buffer_box sb lx ly) none outputs).2 q hp
        have hqmem : q ∈ outputs := by
          rw [hdec]
          simp
        rw [hall q hqmem] at hq2
        exact absurd hq2 (by simp)
  · intro q hq
    obtain ⟨l1, l2, hdec, _, hq2, _, hq4, hq5⟩ :=
      (pass1_primary_spec (scene_buffer_box sb lx ly) none outputs).2 q hq
    exact ⟨l1, l2, hdec, hq2,
      fun o ho hio => hq4 o ho (by simp) hio,
      fun o ho hio => hq5 o ho (by simp) hio⟩

/-- Witness for C1 at a concrete input: a 100×100 buffer at (1900, 500)
against two 1920×1080 outputs at (0, 0) and (1920, 0) (the spec's S3
scenario); the bit of output 0 is set because the boxes intersect. -/
theorem c1_active_outputs_and_primary_witness :
    ((scene_buffer_update_outputs
        { buffer := some ⟨1, 100, 100⟩, texture := none, srcBox := fbox_zero,
          dstWidth := 0, dstHeight := 0, transform := 0,
          activeOutputs := 0, primaryOutput := none } 1900 500
        [⟨0, 0, 0, 1920, 1080, 0⟩, ⟨1, 1920, 0, 1920, 1080, 0⟩] none).1).activeOutputs.testBit 0 =
      intersectsOut
        (scene_buffer_box
          { buffer := some ⟨1, 100, 100⟩, texture := none, srcBox := fbox_zero,
            dstWidth := 0, dstHeight := 0, transform := 0,
            activeOutputs := 0, primaryOutput := none } 1900 500)
        ⟨0, 0, 0, 1920, 1080, 0⟩ := by
  have h := c1_active_outputs_and_primary
    { buffer := some ⟨1, 100, 100⟩, texture := none, srcBox := fbox_zero,
      dstWidth := 0, dstHeight := 0, transform := 0,
      activeOutputs := 0, primaryOutput := none } 1900 500
    [⟨0, 0, 0, 1920, 1080, 0⟩, ⟨1, 1920, 0, 1920, 1080, 0⟩] (by decide)
  exact h.1 ⟨0, 0, 0, 1920, 1080, 0⟩ (by simp)

theorem and_one_shift_ne_zero (x i : Nat) : (x &&& (1 <<< i) ≠ 0) ↔ x.testBit i = true := by
  rw [Nat.one_shiftLeft, Nat.and_two_pow]
  rcases h : x.testBit i with _ | _
  · simp
  · simp [(Nat.two_pow_pos i).ne']

/-- The second loop's emissions, restated through testBit. -/
theorem pass2_eq_testBit (old_active active : Nat) (outputs : List SceneOutput) :
    pass2 old_active active outputs = outputs.filterMap (fun o =>
      if active.testBit o.index = true ∧ old_active.testBit o.index = false then
        some (BufEvent.enter o)
      else if active.testBit o.index = false ∧ old_active.testBit o.index = true then
        some (BufEvent.leave o)
      else none) := by
  unfold pass2
  congr 1
  funext o
  rcases hn : active.testBit o.index with _ | _ <;>
    rcases ho : old_active.testBit o.index with _ | _ <;>
      simp [and_one_shift_ne_zero, hn, ho]

theorem pass2_mem (old_active active : Nat) (outputs : List SceneOutput) (e : BufEvent) :
    e ∈ pass2 old_active active outputs ↔
      ∃ o ∈ outputs,
        (e = BufEvent.enter o ∧ active.testBit o.index = true ∧
          old_active.testBit o.index = false) ∨
        (e = BufEvent.leave o ∧ active.testBit o.index = false ∧
          old_active.testBit o.index = true) := by
  rw [pass2_eq_testBit, List.mem_filterMap]
  constructor
  · rintro ⟨o, ho, hg⟩
    refine ⟨o, ho, ?_⟩
    rcases hn : active.testBit o.index with _ | _ <;>
      rcases hd : old_active.testBit o.index with _ | _ <;>
        simp [hn, hd] at hg <;> simp [hg, hn, hd]
  · rintro ⟨o, ho, ⟨he, hn, hd⟩ | ⟨he, hn, hd⟩⟩ <;>
      exact ⟨o, ho, by simp [hn, hd, he]⟩

theorem pass2_count_zero (old_active active : Nat) (outputs : List SceneOutput)
    {o : SceneOutput} (hno : o.index ∉ outputs.map SceneOutput.index) :
    (pass2 old_active active outputs).count (BufEvent.enter o) = 0 ∧
    (pass2 old_active active outputs).count (BufEvent.leave o) = 0 := by
  constructor
  · rw [List.count_eq_zero]
    intro hmem
    obtain ⟨o', ho', h⟩ := (pass2_mem old_active active outputs _).mp hmem
    rcases h with ⟨he, _, _⟩ | ⟨he, _, _⟩
    · injection he with h1
      subst h1
      exact hno (List.mem_map.mpr ⟨o, ho', rfl⟩)
    · exact BufEvent.noConfusion he
  · rw [List.count_eq_zero]
    intro hmem
    obtain ⟨o', ho', h⟩ := (pass2_mem old_active active outputs _).mp hmem
    rcases h with ⟨he, _, _⟩ | ⟨he, _, _⟩
    · exact BufEvent.noConfusion he
    · injection he with h1
      subst h1
      exact hno (List.mem_map.mpr ⟨o, ho', rfl⟩)

theorem pass2_count_enter (old_active active : Nat) (outputs : List SceneOutput)
    (hNodup : (outputs.map SceneOutput.index).Nodup)
    {o : SceneOutput} (ho : o ∈ outputs) :
    (pass2 old_active active outputs).count (BufEvent.enter o) =
      if active.testBit o.index = true ∧ old_active.testBit o.index = false then 1 else 0 := by
  induction outputs with
  | nil => exact absurd ho (by simp)
  | cons x xs ih =>
    rw [List.map_cons, List.nodup_cons] at hNodup
    rw [pass2_eq_testBit, List.filterMap_cons]
    by_cases hxo : o = x
    · subst hxo
      have hz := (pass2_count_zero old_active active xs hNodup.1).1
      rw [pass2_eq_testBit] at hz
      rcases hn : active.testBit o.index with _ | _ <;>
        rcases hd : old_active.testBit o.index with _ | _ <;>
          simp [hn, hd, hz, List.count_cons]
    · have hmem : o ∈ xs := by
        rcases List.mem_cons.mp ho with h | h
        · exact absurd h hxo
        · exact h
      have hih := ih hNodup.2 hmem
      rw [pass2_eq_testBit] at hih
      have hne : ¬ (BufEvent.enter o = BufEvent.enter x) := by simp [hxo]
      have hne2 : ¬ (BufEvent.enter o = BufEvent.leave x) := by simp
      rcases hn : active.testBit x.index with _ | _ <;>
        rcases hd : old_active.testBit x.index with _ | _ <;>
          simp [hn, hd, hih, List.count_cons, hne, hne2]

theorem pass2_count_leave (old_active active : Nat) (outputs : List SceneOutput)
    (hNodup : (outputs.map SceneOutput.index).Nodup)
    {o : SceneOutput} (ho : o ∈ outputs) :
    (pass2 old_active active outputs).count (BufEvent.leave o) =
      if active.testBit o.index = false ∧ old_active.testBit o.index = true then 1 else 0 := by
  induction outputs with
  | nil => exact absurd ho (by simp)
  | cons x xs ih =>
    rw [List.map_cons, List.nodup_cons] at hNodup
    rw [pass2_eq_testBit, List.filterMap_cons]
    by_cases hxo : o = x
    · subst hxo
      have hz := (pass2_count_zero old_active active xs hNodup.1).2
      rw [pass2_eq_testBit] at hz
      rcases hn : active.testBit o.index with _ | _ <;>
        rcases hd : old_active.testBit o.index with _ | _ <;>
          simp [hn, hd, hz, List.count_cons]
    · have hmem : o ∈ xs := by
        rcases List.mem_cons.mp ho with h | h
        · exact absurd h hxo
        · exact h
      have hih := ih hNodup.2 hmem
      rw [pass2_eq_testBit] at hih
      have hne : ¬ (BufEvent.leave o = BufEvent.leave x) := by simp [hxo]
      have hne2 : ¬ (BufEvent.leave o = BufEvent.enter x) := by simp
      rcases hn : active.testBit x.index with _ | _ <;>
        rcases hd : old_active.testBit x.index with _ | _ <;>
          simp [hn, hd, hih, List.count_cons, hne, hne2]

/-- Claim C3: for a single membership recomputation the emitted
output_enter and output_leave events are exactly the symmetric
difference of the pre- and post-mutation active_outputs bitsets: one
enter per newly set bit, one leave per newly cleared bit, no other
events, and every changed bit belongs to an output of the list. -/
theorem c3_events_are_symmetric_difference (sb : SceneBuffer) (lx ly : Int)
    (outputs : List SceneOutput)
    (hNodup : (outputs.map SceneOutput.index).Nodup)
    (hOld : ∀ i, sb.activeOutputs.testBit i = true → ∃ o ∈ outputs, o.index = i) :
    (∀ o ∈ outputs,
      ((scene_buffer_update_outputs sb lx ly outputs none).2).count (BufEvent.enter o) =
        if ((scene_buffer_update_outputs sb lx ly outputs none).1).activeOutputs.testBit o.index = true ∧
            sb.activeOutputs.testBit o.index = false then 1 else 0) ∧
    (∀ o ∈ outputs,
      ((scene_buffer_update_outputs sb lx ly outputs none).2).count (BufEvent.leave o) =
        if ((scene_buffer_update_outputs sb lx ly outputs none).1).activeOutputs.testBit o.index = false ∧
            sb.activeOutputs.testBit o.index = true then 1 else 0) ∧
    (∀ e ∈ (scene_buffer_update_outputs sb lx ly outputs none).2, ∃ o ∈ outputs,
      (e = BufEvent.enter o ∧
        ((scene_buffer_update_outputs sb lx ly outputs none).1).activeOutputs.testBit o.index = true ∧
        sb.activeOutputs.testBit o.index = false) ∨
      (e = BufEvent.leave o ∧
        ((scene_buffer_update_outputs sb lx ly outputs none).1).activeOutputs.testBit o.index = false ∧
        sb.activeOutputs.testBit o.index = true)) ∧
    (∀ i, ((scene_buffer_update_outputs sb lx ly outputs none).1).activeOutputs.testBit i ≠
        sb.activeOutputs.testBit i → ∃ o ∈ outputs, o.index = i) := by
  rw [update_outputs_fst, update_outputs_snd]
  refine ⟨?_, ?_, ?_, ?_⟩
  · intro o ho
    exact pass2_count_enter sb.activeOutputs _ outputs hNodup ho
  · intro o ho
    exact pass2_count_leave sb.activeOutputs _ outputs hNodup ho
  · intro e he
    exact (pass2_mem sb.activeOutputs _ outputs e).mp he
  · intro i hne
    rcases hnew : ((pass1 (scene_buffer_box sb lx ly) none outputs).active_outputs).testBit i with _ | _
    · rcases hold : sb.activeOutputs.testBit i with _ | _
      · rw [hnew, hold] at hne
        exact absurd rfl hne
      · exact hOld i hold
    · obtain ⟨o, ho, _, hidx, _⟩ :=
        (pass1_testBit (scene_buffer_box sb lx ly) none outputs i).mp hnew
      exact ⟨o, ho, hidx⟩

/-- Witness for C3 at a concrete input: a 100×100 buffer at (1900, 500)
with no previously active outputs enters output 0 exactly once. -/
theorem c3_events_are_symmetric_difference_witness :
    ((scene_buffer_update_outputs
        { buffer := some ⟨1, 100, 100⟩, texture := none, srcBox := fbox_zero,
          dstWidth := 0, dstHeight := 0, transform := 0,
          activeOutputs := 0, primaryOutput := none } 1900 500
        [⟨0, 0, 0, 1920, 1080, 0⟩, ⟨1, 1920, 0, 1920, 1080, 0⟩] none).2).count
        (BufEvent.enter ⟨0, 0, 0, 1920, 1080, 0⟩) =
      if ((scene_buffer_update_outputs
            { buffer := some ⟨1, 100, 100⟩, texture := none, srcBox := fbox_zero,
              dstWidth := 0, dstHeight := 0, transform := 0,
              activeOutputs := 0, primaryOutput := none } 1900 500
            [⟨0, 0, 0, 1920, 1080, 0⟩, ⟨1, 1920, 0, 1920, 1080, 0⟩] none).1).activeOutputs.testBit 0 = true ∧
          (0 : Nat).testBit 0 = false then 1 else 0 := by
  have h := c3_events_are_symmetric_difference
    { buffer := some ⟨1, 100, 100⟩, texture := none, srcBox := fbox_zero,
      dstWidth := 0, dstHeight := 0, transform := 0,
      activeOutputs := 0, primaryOutput := none } 1900 500
    [⟨0, 0, 0, 1920, 1080, 0⟩, ⟨1, 1920, 0, 1920, 1080, 0⟩] (by decide)
    (by
      intro i hi
      rw [Nat.zero_testBit] at hi
      exact absurd hi (by simp))
  exact h.1 ⟨0, 0, 0, 1920, 1080, 0⟩ (by simp)

/-- The emission loop never writes the buffer fields: it only appends to
the trace, pairing every emission with the buffer state it started from. -/
theorem pass2_exec_spec (old_active active : Nat) (outputs : List SceneOutput) :
    ∀ s : EmitState, pass2_exec old_active active outputs s =
      { buf := s.buf,
        trace := s.trace ++ (pass2 old_active active outputs).map (fun e => (s.buf, e)) } := by
  induction outputs with
  | nil => intro s; simp [pass2_exec, pass2]
  | cons x xs ih =>
    intro s
    have hstep : pass2_exec old_active active (x :: xs) s =
        pass2_exec old_active active xs
          (if active &&& (1 <<< x.index) ≠ 0 ∧ ¬ old_active &&& (1 <<< x.index) ≠ 0 then
            { s with trace := s.trace ++ [(s.buf, BufEvent.enter x)] }
          else if ¬ active &&& (1 <<< x.index) ≠ 0 ∧ old_active &&& (1 <<< x.index) ≠ 0 then
            { s with trace := s.trace ++ [(s.buf, BufEvent.leave x)] }
          else s) := rfl
    have hcons : pass2 old_active active (x :: xs) =
        (if active &&& (1 <<< x.index) ≠ 0 ∧ ¬ old_active &&& (1 <<< x.index) ≠ 0 then
          [BufEvent.enter x]
        else if ¬ active &&& (1 <<< x.index) ≠ 0 ∧ old_active &&& (1 <<< x.index) ≠ 0 then
          [BufEvent.leave x]
        else []) ++ pass2 old_active active xs := by
      unfold pass2
      rw [List.filterMap_cons]
      by_cases h1 : active &&& (1 <<< x.index) ≠ 0 ∧ ¬ old_active &&& (1 <<< x.index) ≠ 0
      · simp only [if_pos h1]
        rfl
      · simp only [if_neg h1]
        by_cases h2 : ¬ active &&& (1 <<< x.index) ≠ 0 ∧ old_active &&& (1 <<< x.index) ≠ 0
        · simp only [if_pos h2]
          rfl
        · simp only [if_neg h2]
          rfl
    rw [hstep, hcons]
    by_cases h1 : active &&& (1 <<< x.index) ≠ 0 ∧ ¬ old_active &&& (1 <<< x.index) ≠ 0
    · simp only [if_pos h1]
      rw [ih]
      simp
    · simp only [if_neg h1]
      by_cases h2 : ¬ active &&& (1 <<< x.index) ≠ 0 ∧ old_active &&& (1 <<< x.index) ≠ 0
      · simp only [if_pos h2]
        rw [ih]
        simp
      · simp only [if_neg h2]
        rw [ih]
        simp

/-- Claim C4: when an output_enter or output_leave fires during a
membership recomputation, the buffer node's active_outputs and
primary_output already hold their final values: the function computes
the new bitset and primary output over all outputs first, assigns both
fields, and only then runs the emission loop. The first two conjuncts
tie the statement-ordered execution to scene_buffer_update_outputs; the
third states that every emission snapshot carries the updated fields. -/
theorem c4_fields_updated_before_signals (sb : SceneBuffer) (lx ly : Int)
    (outputs : List SceneOutput) (ignore : Option Nat) :
    (scene_buffer_update_outputs_exec sb lx ly outputs ignore).buf =
      (scene_buffer_update_outputs sb lx ly outputs ignore).1 ∧
    (scene_buffer_update_outputs_exec sb lx ly outputs ignore).trace.map Prod.snd =
      (scene_buffer_update_outputs sb lx ly outputs ignore).2 ∧
    (∀ p ∈ (scene_buffer_update_outputs_exec sb lx ly outputs ignore).trace,
      p.1.activeOutputs =
        ((scene_buffer_update_outputs sb lx ly outputs ignore).1).activeOutputs ∧
      p.1.primaryOutput =
        ((scene_buffer_update_outputs sb lx ly outputs ignore).1).primaryOutput) := by
  have hexec : scene_buffer_update_outputs_exec sb lx ly outputs ignore =
      { buf := (scene_buffer_update_outputs sb lx ly outputs ignore).1,
        trace := (scene_buffer_update_outputs sb lx ly outputs ignore).2.map
          (fun e => ((scene_buffer_update_outputs sb lx ly outputs ignore).1, e)) } := by
    unfold scene_buffer_update_outputs_exec
    rw [pass2_exec_spec]
    rw [update_outputs_fst, update_outputs_snd]
    simp
  refine ⟨by rw [hexec], by rw [hexec]; simp, ?_⟩
  intro p hp
  rw [hexec] at hp
  simp only [List.mem_map] at hp
  obtain ⟨e, _, hpe⟩ := hp
  rw [← hpe]
  exact ⟨rfl, rfl⟩

/-- Witness for C4 at a concrete input: a buffer entering one output;
the snapshot carried by the emission already has the final fields. -/
theorem c4_fields_updated_before_signals_witness :
    (((scene_buffer_update_outputs_exec
        { buffer := some ⟨1, 100, 100⟩, texture := none, srcBox := fbox_zero,
          dstWidth := 0, dstHeight := 0, transform := 0,
          activeOutputs := 0, primaryOutput := none } 10 10
        [⟨0, 0, 0, 1920, 1080, 0⟩] none).trace.head?).elim True
        (fun p =>
          p.1.activeOutputs =
            ((scene_buffer_update_outputs
              { buffer := some ⟨1, 100, 100⟩, texture := none, srcBox := fbox_zero,
                dstWidth := 0, dstHeight := 0, transform := 0,
                activeOutputs := 0, primaryOutput := none } 10 10
              [⟨0, 0, 0, 1920, 1080, 0⟩] none).1).activeOutputs)) := by
  have h := c4_fields_updated_before_signals
    { buffer := some ⟨1, 100, 100⟩, texture := none, srcBox := fbox_zero,
      dstWidth := 0, dstHeight := 0, transform := 0,
      activeOutputs := 0, primaryOutput := none } 10 10
    [⟨0, 0, 0, 1920, 1080, 0⟩] none
  cases hh : (scene_buffer_update_outputs_exec
      { buffer := some ⟨1, 100, 100⟩, texture := none, srcBox := fbox_zero,
        dstWidth := 0, dstHeight := 0, transform := 0,
        activeOutputs := 0, primaryOutput := none } 10 10
      [⟨0, 0, 0, 1920, 1080, 0⟩] none).trace.head? with
  | none => simp [hh]
  | some p =>
    have hmem : p ∈ (scene_buffer_update_outputs_exec
        { buffer := some ⟨1, 100, 100⟩, texture := none, srcBox := fbox_zero,
          dstWidth := 0, dstHeight := 0, transform := 0,
          activeOutputs := 0, primaryOutput := none } 10 10
        [⟨0, 0, 0, 1920, 1080, 0⟩] none).trace := List.mem_of_mem_head? hh
    simp only [hh, Option.elim]
    exact (h.2.2 p hmem).1

/-- An externally visible side effect of a setter: a whole-node damage
pass over the damage engine, or a tree-wide membership recomputation
(which is where enter/leave signals can originate). An empty effect
list means no damage was added anywhere and no signal fired. -/
inductive Effect where
  | damage_whole
  | update_outputs
deriving DecidableEq

/-- wlr_scene_node_set_enabled (lines 593-602): no-op when unchanged,
else damage-before, mutate, damage-after. -/
def wlr_scene_node_set_enabled (n : NodeHeader) (enabled : Bool) : NodeHeader × List Effect :=
  if n.enabled = enabled then (n, [])
  else ({ n with enabled := enabled }, [Effect.damage_whole, Effect.damage_whole])

/-- wlr_scene_node_set_position (lines 604-615): no-op when unchanged,
else damage, mutate, damage, recompute membership. -/
def wlr_scene_node_set_position (n : NodeHeader) (x y : Int) : NodeHeader × List Effect :=
  if n.x = x ∧ n.y = y then (n, [])
  else ({ n with x := x, y := y },
    [Effect.damage_whole, Effect.damage_whole, Effect.update_outputs])

/-- wlr_scene_rect_set_size (lines 303-312). -/
def wlr_scene_rect_set_size (r : RectFields) (width height : Int) : RectFields × List Effect :=
  if r.width = width ∧ r.height = height then (r, [])
  else ({ r with width := width, height := height },
    [Effect.damage_whole, Effect.damage_whole])

/-- wlr_scene_rect_set_color (lines 314-321): memcmp on the four color
channels, then one whole-node damage on change. -/
def wlr_scene_rect_set_color (r : RectFields) (color : Rat × Rat × Rat × Rat) :
    RectFields × List Effect :=
  if r.color = color then (r, [])
  else ({ r with color := color }, [Effect.damage_whole])

/-- wlr_scene_buffer_set_source_box (lines 438-453): no-op when both the
argument and the stored box are empty, or when the argument is non-null
and memcmp-equal to the stored box; otherwise store (zeroing on NULL)
and damage once. -/
def wlr_scene_buffer_set_source_box (sb : SceneBuffer) (box : Option FBox) :
    SceneBuffer × List Effect :=
  if (wlr_fbox_empty box && fbox_empty_val sb.srcBox) = true ∨
      box = some sb.srcBox then (sb, [])
  else
    match box with
    | some b => ({ sb with srcBox := b }, [Effect.damage_whole])
    | none => ({ sb with srcBox := fbox_zero }, [Effect.damage_whole])

/-- wlr_scene_buffer_set_dest_size (lines 455-467). -/
def wlr_scene_buffer_set_dest_size (sb : SceneBuffer) (width height : Int) :
    SceneBuffer × List Effect :=
  if sb.dstWidth = width ∧ sb.dstHeight = height then (sb, [])
  else ({ sb with dstWidth := width, dstHeight := height },
    [Effect.damage_whole, Effect.damage_whole, Effect.update_outputs])

/-- wlr_scene_buffer_set_transform (lines 469-480). -/
def wlr_scene_buffer_set_transform (sb : SceneBuffer) (transform : Nat) :
    SceneBuffer × List Effect :=
  if sb.transform = transform then (sb, [])
  else ({ sb with transform := transform },
    [Effect.damage_whole, Effect.damage_whole, Effect.update_outputs])

/-- wlr_scene_buffer_set_buffer (lines 433-436), that is
wlr_scene_buffer_set_buffer_with_damage with a NULL damage region
(lines 348-379): with unchanged buffer identity nothing happens; on
change the cached texture is dropped, the buffer swapped, membership
recomputed, with whole-node damage on both sides. -/
def wlr_scene_buffer_set_buffer (sb : SceneBuffer) (buffer : Option WlrBuffer) :
    SceneBuffer × List Effect :=
  if buffer ≠ sb.buffer then
    ({ sb with texture := none, buffer := buffer },
      [Effect.damage_whole, Effect.update_outputs, Effect.damage_whole])
  else (sb, [])

/-- Claim C7: every setter invoked with the field's current value is a
complete no-op: the state is returned unchanged and the effect list is
empty (no damage added to any output's accumulator, no membership
recomputation, hence no signals). For set_buffer this is the call with
unchanged buffer identity and a null damage region. -/
theorem c7_setters_idempotent (n : NodeHeader) (r : RectFields) (sb : SceneBuffer) :
    wlr_scene_node_set_enabled n n.enabled = (n, []) ∧
    wlr_scene_node_set_position n n.x n.y = (n, []) ∧
    wlr_scene_rect_set_size r r.width r.height = (r, []) ∧
    wlr_scene_rect_set_color r r.color = (r, []) ∧
    wlr_scene_buffer_set_source_box sb (some sb.srcBox) = (sb, []) ∧
    wlr_scene_buffer_set_dest_size sb sb.dstWidth sb.dstHeight = (sb, []) ∧
    wlr_scene_buffer_set_transform sb sb.transform = (sb, []) ∧
    wlr_scene_buffer_set_buffer sb sb.buffer = (sb, []) := by
  refine ⟨?_, ?_, ?_, ?_, ?_, ?_, ?_, ?_⟩
  · simp [wlr_scene_node_set_enabled]
  · simp [wlr_scene_node_set_position]
  · simp [wlr_scene_rect_set_size]
  · simp [wlr_scene_rect_set_color]
  · simp [wlr_scene_buffer_set_source_box]
  · simp [wlr_scene_buffer_set_dest_size]
  · simp [wlr_scene_buffer_set_transform]
  · simp [wlr_scene_buffer_set_buffer]

mutual
/-- scene_node_for_each_node (lines 923-942): skip disabled subtrees,
accumulate absolute coordinates, visit the node itself first and then
its children in list order. Returns the visited nodes with the absolute
coordinates the iterator receives. -/
def scene_node_for_each_node : Int → Int → SceneNode → List (SceneNode × Int × Int)
  | lx, ly, SceneNode.tree h cs =>
    if h.enabled then
      (SceneNode.tree h cs, lx + h.x, ly + h.y) ::
        scene_node_for_each_list (lx + h.x) (ly + h.y) cs
    else []
  | lx, ly, SceneNode.rect h f =>
    if h.enabled then [(SceneNode.rect h f, lx + h.x, ly + h.y)] else []
  | lx, ly, SceneNode.buffer h sb =>
    if h.enabled then [(SceneNode.buffer h sb, lx + h.x, ly + h.y)] else []
def scene_node_for_each_list : Int → Int → List SceneNode → List (SceneNode × Int × Int)
  | _, _, [] => []
  | lx, ly, c :: cs =>
    scene_node_for_each_node lx ly c ++ scene_node_for_each_list lx ly cs
end

mutual
/-- The recursive walk _scene_node_update_outputs (lines 259-274): the
first two arguments are the node's absolute position; buffer nodes run
scene_buffer_update_outputs there (events tagged with the node id),
tree nodes recurse into children at the children's absolute positions,
rect nodes do nothing. Disabled nodes are visited as well (membership is
purely geometric). -/
def scene_node_update_outputs_rec : Int → Int → List SceneOutput → Option Nat → SceneNode →
    SceneNode × List (Nat × BufEvent)
  | lx, ly, outs, ig, SceneNode.buffer h sb =>
    (SceneNode.buffer h (scene_buffer_update_outputs sb lx ly outs ig).1,
     (scene_buffer_update_outputs sb lx ly outs ig).2.map (fun e => (h.id, e)))
  | lx, ly, outs, ig, SceneNode.tree h cs =>
    (SceneNode.tree h (scene_node_update_outputs_list lx ly outs ig cs).1,
     (scene_node_update_outputs_list lx ly outs ig cs).2)
  | _, _, _, _, SceneNode.rect h f => (SceneNode.rect h f, [])
def scene_node_update_outputs_list : Int → Int → List SceneOutput → Option Nat → List SceneNode →
    List SceneNode × List (Nat × BufEvent)
  | _, _, _, _, [] => ([], [])
  | lx, ly, outs, ig, c :: cs =>
    ((scene_node_update_outputs_rec (lx + (nodeHeader c).x) (ly + (nodeHeader c).y) outs ig c).1 ::
       (scene_node_update_outputs_list lx ly outs ig cs).1,
     (scene_node_update_outputs_rec (lx + (nodeHeader c).x) (ly + (nodeHeader c).y) outs ig c).2 ++
       (scene_node_update_outputs_list lx ly outs ig cs).2)
end

mutual
/-- All buffer nodes of a subtree with their ids and absolute positions,
with the same coordinate convention as the update walk (the first two
arguments are the subtree root's absolute position). -/
def scene_buffers : Int → Int → SceneNode → List (Nat × SceneBuffer × Int × Int)
  | lx, ly, SceneNode.buffer h sb => [(h.id, sb, lx, ly)]
  | lx, ly, SceneNode.tree _ cs => scene_buffers_list lx ly cs
  | _, _, SceneNode.rect _ _ => []
def scene_buffers_list : Int → Int → List SceneNode → List (Nat × SceneBuffer × Int × Int)
  | _, _, [] => []
  | lx, ly, c :: cs =>
    scene_buffers (lx + (nodeHeader c).x) (ly + (nodeHeader c).y) c ++
      scene_buffers_list lx ly cs
end

mutual
/-- The ids of a subtree in pre-order: a node first, then its children
left to right. -/
def preorder_ids : SceneNode → List Nat
  | SceneNode.tree h cs => h.id :: preorder_ids_list cs
  | SceneNode.rect h _ => [h.id]
  | SceneNode.buffer h _ => [h.id]
def preorder_ids_list : List SceneNode → List Nat
  | [] => []
  | c :: cs => preorder_ids c ++ preorder_ids_list cs
end

mutual
/-- All nodes of a subtree (the subtree root included). -/
def subtree_nodes : SceneNode → List SceneNode
  | SceneNode.tree h cs => SceneNode.tree h cs :: subtree_nodes_list cs
  | SceneNode.rect h f => [SceneNode.rect h f]
  | SceneNode.buffer h sb => [SceneNode.buffer h sb]
def subtree_nodes_list : List SceneNode → List SceneNode
  | [] => []
  | c :: cs => subtree_nodes c ++ subtree_nodes_list cs
end

/-- One observable action of wlr_scene_node_destroy. -/
inductive DestroyAct where
  | damage_whole (id : Nat)
  | destroy_signal (id : Nat)
  | output_leave (id : Nat) (o : SceneOutput)
  | free (id : Nat)
deriving DecidableEq

/-- The output_leave emissions of wlr_scene_node_destroy for a buffer
node (lines 99-108): one per set bit of active_outputs, in outputs-list
order. -/
def destroy_buffer_leaves (outs : List SceneOutput) (id : Nat) (active : Nat) : List DestroyAct :=
  outs.filterMap (fun o =>
    if active &&& (1 <<< o.index) ≠ 0 then some (DestroyAct.output_leave id o) else none)

mutual
/-- The action trace of wlr_scene_node_destroy (lines 83-142) on a
non-root subtree: whole-node damage, then the destroy signal, then for
buffer nodes the output_leave emissions, then recursive destruction of
the children, and finally the free of the node itself. (Destroying the
scene root additionally tears down the scene-outputs first; that branch
is outside this subtree model.) -/
def wlr_scene_node_destroy : List SceneOutput → SceneNode → List DestroyAct
  | outs, SceneNode.buffer h sb =>
    DestroyAct.damage_whole h.id :: DestroyAct.destroy_signal h.id ::
      (destroy_buffer_leaves outs h.id sb.activeOutputs ++ [DestroyAct.free h.id])
  | _, SceneNode.rect h _ =>
    [DestroyAct.damage_whole h.id, DestroyAct.destroy_signal h.id, DestroyAct.free h.id]
  | outs, SceneNode.tree h cs =>
    DestroyAct.damage_whole h.id :: DestroyAct.destroy_signal h.id ::
      (wlr_scene_node_destroy_list outs cs ++ [DestroyAct.free h.id])
def wlr_scene_node_destroy_list : List SceneOutput → List SceneNode → List DestroyAct
  | _, [] => []
  | outs, c :: cs =>
    wlr_scene_node_destroy outs c ++ wlr_scene_node_destroy_list outs cs
end

/-- The external output (struct wlr_output): the fields that the scene
consults, modelled from the spec as plain data. -/
structure WlrOutput where
  effWidth : Int
  effHeight : Int
  transform : Nat
deriving DecidableEq

/-- The scene-output built by wlr_scene_output_create under a given
index: position (0, 0) (the struct is calloc'd), resolution and
transform taken from the underlying output. -/
def mk_scene_output (index : Nat) (output : WlrOutput) : SceneOutput :=
  { index := index, x := 0, y := 0, effWidth := output.effWidth,
    effHeight := output.effHeight, transform := output.transform }

/-- The index-allocation walk of wlr_scene_output_create (lines
1007-1022): `next` is prev_output_index + 1 (the C starts prev_output_index
at -1, i.e. next = 0); the loop consumes outputs while their indices are
consecutive and inserts the new scene-output right after the last
consecutive one, before the first gap. Returns the chosen index and the
new outputs list. -/
def scene_output_insert (output : WlrOutput) : Nat → List SceneOutput → Nat × List SceneOutput
  | next, [] => (next, [mk_scene_output next output])
  | next, o :: rest =>
    if next ≠ o.index then (next, mk_scene_output next output :: o :: rest)
    else
      ((scene_output_insert output (o.index + 1) rest).1,
       o :: (scene_output_insert output (o.index + 1) rest).2)

/-- One observable action of wlr_scene_output_create. -/
inductive CreateAct where
  | damage_add_whole (index : Nat)
  | buf_enter (id : Nat) (o : SceneOutput)
  | buf_leave (id : Nat) (o : SceneOutput)
deriving DecidableEq

/-- A tagged buffer event as an action of the create path. -/
def buf_event_act : Nat × BufEvent → CreateAct
  | (id, BufEvent.enter o) => CreateAct.buf_enter id o
  | (id, BufEvent.leave o) => CreateAct.buf_leave id o

/-- wlr_scene_output_create (lines 990-1036): allocate the minimum free
index (the `assert(scene_output->index < 64)` is modelled as returning
none), insert the new scene-output keeping the list sorted by index,
add whole-output damage to the new output's accumulator, and recompute
membership for the entire tree against the new outputs list. `tree` is
the scene root, whose absolute position is its own (x, y). Returns the
new scene-output, the new outputs list, the updated tree, and the
action trace. -/
def wlr_scene_output_create (outs : List SceneOutput) (tree : SceneNode) (output : WlrOutput) :
    Option (SceneOutput × List SceneOutput × SceneNode × List CreateAct) :=
  let r := scene_output_insert output 0 outs
  if r.1 < 64 then
    let u := scene_node_update_outputs_rec (nodeHeader tree).x (nodeHeader tree).y r.2 none tree
    some (mk_scene_output r.1 output, r.2, u.1,
      CreateAct.damage_add_whole r.1 :: u.2.map buf_event_act)
  else none

/-- Full characterization of the allocation walk: starting from `next`
on a sorted list whose indices are all at least `next`, the chosen
index is new, every smaller candidate at least `next` is taken, the
resulting list is still sorted, its members are the old ones plus the
new scene-output, and the index is at most next + length. -/
theorem scene_output_insert_spec (output : WlrOutput) :
    ∀ (l : List SceneOutput) (next : Nat),
      (l.map SceneOutput.index).Pairwise (· < ·) →
      (∀ o ∈ l, next ≤ o.index) →
      (next ≤ (scene_output_insert output next l).1 ∧
       (∀ o ∈ l, o.index ≠ (scene_output_insert output next l).1) ∧
       (∀ k, next ≤ k → k < (scene_output_insert output next l).1 → ∃ o ∈ l, o.index = k) ∧
       ((scene_output_insert output next l).2.map SceneOutput.index).Pairwise (· < ·) ∧
       (∀ o, o ∈ (scene_output_insert output next l).2 ↔
          o = mk_scene_output (scene_output_insert output next l).1 output ∨ o ∈ l) ∧
       (scene_output_insert output next l).1 ≤ next + l.length) := by
  intro l
  induction l with
  | nil =>
    intro next _ _
    refine ⟨le_refl _, by simp, ?_, by simp [scene_output_insert], by simp [scene_output_insert], by simp [scene_output_insert]⟩
    intro k hk1 hk2
    simp [scene_output_insert] at hk2
    omega
  | cons o rest ih =>
    intro next hSorted hlb
    rw [List.map_cons, List.pairwise_cons] at hSorted
    obtain ⟨hHead, hTail⟩ := hSorted
    by_cases hne : next ≠ o.index
    · have hlt : next < o.index := lt_of_le_of_ne (hlb o (by simp)) hne
      have hres : scene_output_insert output next (o :: rest) =
          (next, mk_scene_output next output :: o :: rest) := by
        unfold scene_output_insert
        rw [if_pos hne]
      rw [hres]
      refine ⟨le_refl _, ?_, ?_, ?_, by simp, by simp⟩
      · intro o' ho'
        rcases List.mem_cons.mp ho' with rfl | hmem
        · omega
        · have := hHead o'.index (List.mem_map.mpr ⟨o', hmem, rfl⟩)
          omega
      · intro k hk1 hk2
        omega
      · rw [List.map_cons, List.pairwise_cons]
        constructor
        · intro b hb
          show next < b
          rw [List.map_cons, List.mem_cons] at hb
          rcases hb with rfl | hmem
          · exact hlt
          · have := hHead b hmem
            omega
        · rw [List.map_cons, List.pairwise_cons]
          exact ⟨hHead, hTail⟩
    · push_neg at hne
      have hlbTail : ∀ o' ∈ rest, o.index + 1 ≤ o'.index := by
        intro o' ho'
        exact hHead o'.index (List.mem_map.mpr ⟨o', ho', rfl⟩)
      obtain ⟨a', b', c', d', e', f'⟩ := ih (o.index + 1) hTail hlbTail
      have hres : scene_output_insert output next (o :: rest) =
          ((scene_output_insert output (o.index + 1) rest).1,
           o :: (scene_output_insert output (o.index + 1) rest).2) := by
        conv_lhs => rw [scene_output_insert]
        rw [if_neg (show ¬ next ≠ o.index by omega)]
      rw [hres]
      refine ⟨by omega, ?_, ?_, ?_, ?_, by simp; omega⟩
      · intro o' ho'
        rcases List.mem_cons.mp ho' with rfl | hmem
        · omega
        · exact b' o' hmem
      · intro k hk1 hk2
        by_cases hko : k = o.index
        · exact ⟨o, by simp, hko.symm⟩
        · obtain ⟨o', ho', hidx⟩ := c' k (by omega) hk2
          exact ⟨o', by simp [ho'], hidx⟩
      · rw [List.map_cons, List.pairwise_cons]
        refine ⟨?_, d'⟩
        intro b hb
        obtain ⟨o', ho', rfl⟩ := List.mem_map.mp hb
        rcases (e' o').mp ho' with rfl | hmem
        · simp [mk_scene_output]
          omega
        · exact hHead o'.index (List.mem_map.mpr ⟨o', hmem, rfl⟩)
      · intro o'
        constructor
        · intro ho'
          rcases List.mem_cons.mp ho' with rfl | hmem
          · exact Or.inr (by simp)
          · rcases (e' o').mp hmem with h | h
            · exact Or.inl h
            · exact Or.inr (by simp [h])
        · intro ho'
          rcases ho' with h | h
          · exact List.mem_cons.mpr (Or.inr ((e' o').mpr (Or.inl h)))
          · rcases List.mem_cons.mp h with rfl | hmem
            · exact List.mem_cons.mpr (Or.inl rfl)
            · exact List.mem_cons.mpr (Or.inr ((e' o').mpr (Or.inr hmem)))

/-- Claim C8: wlr_scene_output_create assigns the minimum index not used
by any existing scene-output, inserts the new scene-output so that the
outputs list remains sorted by index, every assigned index lies in
[0, 64), and creating a scene-output when indices 0..63 are all taken
fails (the source's assertion) rather than assigning an index. -/
theorem c8_output_index_minimal_free (outs : List SceneOutput) (tree : SceneNode)
    (output : WlrOutput)
    (hSorted : (outs.map SceneOutput.index).Pairwise (· < ·)) :
    (∀ res, wlr_scene_output_create outs tree output = some res →
       (res.1.index < 64 ∧
        (∀ o ∈ outs, o.index ≠ res.1.index) ∧
        (∀ k < res.1.index, ∃ o ∈ outs, o.index = k) ∧
        (res.2.1.map SceneOutput.index).Pairwise (· < ·) ∧
        res.1 ∈ res.2.1)) ∧
    ((∀ k < 64, ∃ o ∈ outs, o.index = k) → wlr_scene_output_create outs tree output = none) := by
  obtain ⟨a', b', c', d', e', f'⟩ :=
    scene_output_insert_spec output outs 0 hSorted (fun o _ => Nat.zero_le _)
  constructor
  · intro res hres
    unfold wlr_scene_output_create at hres
    by_cases hlt : (scene_output_insert output 0 outs).1 < 64
    · rw [if_pos hlt] at hres
      obtain rfl := (Option.some_inj.mp hres).symm
      refine ⟨hlt, ?_, ?_, d', (e' _).mpr (Or.inl rfl)⟩
      · intro o ho
        exact b' o ho
      · intro k hk
        exact c' k (Nat.zero_le _) hk
    · rw [if_neg hlt] at hres
      exact absurd hres (by simp)
  · intro hFull
    unfold wlr_scene_output_create
    by_cases hlt : (scene_output_insert output 0 outs).1 < 64
    · obtain ⟨o, ho, hidx⟩ := hFull (scene_output_insert output 0 outs).1 hlt
      exact absurd hidx (b' o ho)
    · rw [if_neg hlt]

/-- Witness for C8 at a concrete input: with outputs of indices 0, 1
and 3 present, the new scene-output gets index 2, the minimum free one. -/
theorem c8_output_index_minimal_free_witness :
    ((wlr_scene_output_create
        [⟨0, 0, 0, 10, 10, 0⟩, ⟨1, 10, 0, 10, 10, 0⟩, ⟨3, 20, 0, 10, 10, 0⟩]
        (SceneNode.rect ⟨1, 0, 0, true⟩ ⟨4, 4, (0, 0, 0, 0)⟩) ⟨10, 10, 0⟩).elim
      True (fun res => res.1.index < 64 ∧ ∀ o ∈
        [(⟨0, 0, 0, 10, 10, 0⟩ : SceneOutput), ⟨1, 10, 0, 10, 10, 0⟩, ⟨3, 20, 0, 10, 10, 0⟩],
        o.index ≠ res.1.index)) := by
  have h := c8_output_index_minimal_free
    [⟨0, 0, 0, 10, 10, 0⟩, ⟨1, 10, 0, 10, 10, 0⟩, ⟨3, 20, 0, 10, 10, 0⟩]
    (SceneNode.rect ⟨1, 0, 0, true⟩ ⟨4, 4, (0, 0, 0, 0)⟩) ⟨10, 10, 0⟩ (by decide)
  cases hc : wlr_scene_output_create
      [⟨0, 0, 0, 10, 10, 0⟩, ⟨1, 10, 0, 10, 10, 0⟩, ⟨3, 20, 0, 10, 10, 0⟩]
      (SceneNode.rect ⟨1, 0, 0, true⟩ ⟨4, 4, (0, 0, 0, 0)⟩) ⟨10, 10, 0⟩ with
  | none => simp [hc]
  | some res =>
    simp only [hc, Option.elim]
    exact ⟨(h.1 res hc).1, (h.1 res hc).2.1⟩

/-- The debug-damage option (enum wlr_scene_debug_damage_option). -/
inductive DebugDamageOption where
  | damage_none
  | damage_rerender
  | damage_highlight
deriving DecidableEq

/-- The box of a visited node at its absolute coordinates, as built by
check_scanout_iterator (lines 1092-1093). -/
def node_box_at (v : SceneNode × Int × Int) : Box :=
  { x := v.2.1, y := v.2.2,
    width := (scene_node_get_size v.1).1, height := (scene_node_get_size v.1).2 }

/-- Whether a visited node's box intersects the viewport. -/
def scan_intersects (vb : Box) (v : SceneNode × Int × Int) : Bool :=
  (wlr_box_intersection vb (node_box_at v)).isSome

/-- struct check_scanout_data (lines 1080-1086). -/
structure CheckScanoutData where
  viewport_box : Box
  node : Option SceneNode
  n : Nat

/-- check_scanout_iterator (lines 1088-1108): skip nodes that do not
intersect the viewport, count the ones that do, and remember a node
whose box equals the viewport exactly. -/
def check_scanout_iterator (d : CheckScanoutData) (v : SceneNode × Int × Int) : CheckScanoutData :=
  match wlr_box_intersection d.viewport_box (node_box_at v) with
  | none => d
  | some _ =>
    let d1 := { d with n := d.n + 1 }
    if d.viewport_box = node_box_at v then { d1 with node := some v.1 } else d1

/-- The iterator state after walking the whole tree (lines 1124-1128). -/
def scanout_check_data (tree : SceneNode) (so : SceneOutput) : CheckScanoutData :=
  (scene_node_for_each_node 0 0 tree).foldl check_scanout_iterator
    { viewport_box := output_box so, node := none, n := 0 }

/-- The externally decided outcomes of wlr_output_test and
wlr_output_commit in the scan-out attempt. -/
structure ScanOracle where
  test_ok : Bool
  commit_ok : Bool
deriving DecidableEq

/-- One output-facing action of the scan-out attempt. -/
inductive ScanAct where
  | attach_buffer
  | rollback
  | output_present
  | output_commit
deriving DecidableEq

/-- The tail of scene_output_scanout once a candidate buffer node has
been singled out (lines 1134-1161): reject a missing buffer, a
non-empty source box or a transform mismatch; otherwise attach the
buffer, roll back if the test fails, else emit output_present and
commit, returning the commit result. -/
def scene_output_scanout_checked (sb : SceneBuffer) (so : SceneOutput) (oracle : ScanOracle) :
    Bool × List ScanAct :=
  match sb.buffer with
  | none => (false, [])
  | some _ =>
    if fbox_empty_val sb.srcBox = false then (false, [])
    else if sb.transform ≠ so.transform then (false, [])
    else if oracle.test_ok = false then (false, [ScanAct.attach_buffer, ScanAct.rollback])
    else (oracle.commit_ok,
      [ScanAct.attach_buffer, ScanAct.output_present, ScanAct.output_commit])

/-- scene_output_scanout (lines 1110-1162): refuse in highlight debug
mode, walk the tree counting nodes that intersect the viewport, and
require exactly one intersecting node, singled out as having a box equal
to the viewport, of buffer kind; then attempt the scan-out. -/
def scene_output_scanout (dbg : DebugDamageOption) (tree : SceneNode)
    (so : SceneOutput) (oracle : ScanOracle) : Bool × List ScanAct :=
  if dbg = DebugDamageOption.damage_highlight then (false, [])
  else if (scanout_check_data tree so).n ≠ 1 then (false, [])
  else
    match (scanout_check_data tree so).node with
    | some (SceneNode.buffer _ sb) => scene_output_scanout_checked sb so oracle
    | _ => (false, [])

theorem check_scanout_iterator_eq (d : CheckScanoutData) (v : SceneNode × Int × Int) :
    check_scanout_iterator d v =
      if scan_intersects d.viewport_box v = true then
        (if d.viewport_box = node_box_at v then
          { viewport_box := d.viewport_box, node := some v.1, n := d.n + 1 }
        else { viewport_box := d.viewport_box, node := d.node, n := d.n + 1 })
      else d := by
  unfold check_scanout_iterator scan_intersects
  cases hi : wlr_box_intersection d.viewport_box (node_box_at v) with
  | none => simp [hi]
  | some i =>
    rw [if_pos (show (some i).isSome = true from rfl)]

theorem check_fold_viewport (vb : Box) :
    ∀ (l : List (SceneNode × Int × Int)) (s0 : Option SceneNode) (n0 : Nat),
      (l.foldl check_scanout_iterator ⟨vb, s0, n0⟩).viewport_box = vb := by
  intro l
  induction l with
  | nil => intro s0 n0; rfl
  | cons v rest ih =>
    intro s0 n0
    rw [List.foldl_cons, check_scanout_iterator_eq]
    by_cases h1 : scan_intersects vb v = true
    · rw [if_pos h1]
      by_cases h2 : vb = node_box_at v
      · rw [if_pos h2]
        exact ih _ _
      · rw [if_neg h2]
        exact ih _ _
    · rw [if_neg h1]
      exact ih _ _

theorem check_fold_n (vb : Box) :
    ∀ (l : List (SceneNode × Int × Int)) (s0 : Option SceneNode) (n0 : Nat),
      (l.foldl check_scanout_iterator ⟨vb, s0, n0⟩).n =
        n0 + (l.filter (fun v => scan_intersects vb v)).length := by
  intro l
  induction l with
  | nil => intro s0 n0; simp
  | cons v rest ih =>
    intro s0 n0
    rw [List.foldl_cons, check_scanout_iterator_eq]
    by_cases h1 : scan_intersects vb v = true
    · rw [if_pos h1]
      by_cases h2 : vb = node_box_at v
      · rw [if_pos h2, ih (some v.1) (n0 + 1)]
        rw [List.filter_cons, if_pos (by simp [h1])]
        simp
        omega
      · rw [if_neg h2, ih s0 (n0 + 1)]
        rw [List.filter_cons, if_pos (by simp [h1])]
        simp
        omega
    · rw [if_neg h1, ih s0 n0]
      have h1f : scan_intersects vb v = false := by
        rcases hb : scan_intersects vb v with _ | _
        · rfl
        · exact absurd hb h1
      rw [List.filter_cons, if_neg (by simp [h1f])]

theorem check_fold_node_none (vb : Box) :
    ∀ (l : List (SceneNode × Int × Int)) (s0 : Option SceneNode) (n0 : Nat),
      (l.foldl check_scanout_iterator ⟨vb, s0, n0⟩).node = none →
      s0 = none ∧ ∀ v ∈ l, ¬ (scan_intersects vb v = true ∧ vb = node_box_at v) := by
  intro l
  induction l with
  | nil =>
    intro s0 n0 h
    exact ⟨h, by simp⟩
  | cons v rest ih =>
    intro s0 n0 h
    rw [List.foldl_cons, check_scanout_iterator_eq] at h
    by_cases h1 : scan_intersects vb v = true
    · rw [if_pos h1] at h
      by_cases h2 : vb = node_box_at v
      · rw [if_pos h2] at h
        obtain ⟨habs, _⟩ := ih (some v.1) (n0 + 1) h
        exact absurd habs (by simp)
      · rw [if_neg h2] at h
        obtain ⟨hs0, hrest⟩ := ih s0 (n0 + 1) h
        refine ⟨hs0, ?_⟩
        intro w hw
        rcases List.mem_cons.mp hw with rfl | hmem
        · rintro ⟨_, hc⟩
          exact h2 hc
        · exact hrest w hmem
    · rw [if_neg h1] at h
      obtain ⟨hs0, hrest⟩ := ih s0 n0 h
      refine ⟨hs0, ?_⟩
      intro w hw
      rcases List.mem_cons.mp hw with rfl | hmem
      · rintro ⟨hc, _⟩
        exact h1 hc
      · exact hrest w hmem

theorem check_fold_node_mem (vb : Box) :
    ∀ (l : List (SceneNode × Int × Int)) (s0 : Option SceneNode) (n0 : Nat) (nd : SceneNode),
      (l.foldl check_scanout_iterator ⟨vb, s0, n0⟩).node = some nd →
      (∃ v ∈ l, scan_intersects vb v = true ∧ vb = node_box_at v ∧ nd = v.1) ∨ s0 = some nd := by
  intro l
  induction l with
  | nil =>
    intro s0 n0 nd h
    exact Or.inr h
  | cons v rest ih =>
    intro s0 n0 nd h
    rw [List.foldl_cons, check_scanout_iterator_eq] at h
    by_cases h1 : scan_intersects vb v = true
    · rw [if_pos h1] at h
      by_cases h2 : vb = node_box_at v
      · rw [if_pos h2] at h
        rcases ih (some v.1) (n0 + 1) nd h with ⟨w, hw, hc⟩ | hs
        · exact Or.inl ⟨w, by simp [hw], hc⟩
        · refine Or.inl ⟨v, by simp, h1, h2, ?_⟩
          injection hs.symm
      · rw [if_neg h2] at h
        rcases ih s0 (n0 + 1) nd h with ⟨w, hw, hc⟩ | hs
        · exact Or.inl ⟨w, by simp [hw], hc⟩
        · exact Or.inr hs
    · rw [if_neg h1] at h
      rcases ih s0 n0 nd h with ⟨w, hw, hc⟩ | hs
      · exact Or.inl ⟨w, by simp [hw], hc⟩
      · exact Or.inr hs

/-- Claim C2: wlr_scene_output_commit takes the direct scan-out path
(attaches a buffer to the output) iff the scene's debug-damage mode is
not highlight, exactly one node visited by the enabled-gated tree walk
has a box intersecting the output's viewport, that node's box equals
the viewport exactly, and it is a buffer node with a non-null buffer,
an empty src_box, and a transform equal to the output's transform. -/
theorem c2_scanout_taken_iff (dbg : DebugDamageOption) (tree : SceneNode)
    (so : SceneOutput) (oracle : ScanOracle) :
    ScanAct.attach_buffer ∈ (scene_output_scanout dbg tree so oracle).2 ↔
      (dbg ≠ DebugDamageOption.damage_highlight ∧
       ∃ v, (scene_node_for_each_node 0 0 tree).filter
           (fun w => scan_intersects (output_box so) w) = [v] ∧
         output_box so = node_box_at v ∧
         ∃ h sb buf, v.1 = SceneNode.buffer h sb ∧ sb.buffer = some buf ∧
           fbox_empty_val sb.srcBox = true ∧ sb.transform = so.transform) := by
  by_cases hdbg : dbg = DebugDamageOption.damage_highlight
  · constructor
    · intro hmem
      unfold scene_output_scanout at hmem
      rw [if_pos hdbg] at hmem
      exact absurd hmem (by simp)
    · rintro ⟨hne, _⟩
      exact absurd hdbg hne
  · unfold scene_output_scanout
    rw [if_neg hdbg]
    have hn_eq : (scanout_check_data tree so).n =
        ((scene_node_for_each_node 0 0 tree).filter
          (fun w => scan_intersects (output_box so) w)).length := by
      unfold scanout_check_data
      rw [check_fold_n]
      simp
    by_cases hn : (scanout_check_data tree so).n ≠ 1
    · rw [if_pos hn]
      constructor
      · intro hmem
        exact absurd hmem (by simp)
      · rintro ⟨_, v, hI, _⟩
        refine absurd ?_ hn
        rw [hn_eq, hI]
        rfl
    · rw [if_neg hn]
      push_neg at hn
      have hlen : ((scene_node_for_each_node 0 0 tree).filter
          (fun w => scan_intersects (output_box so) w)).length = 1 := by
        rw [← hn_eq]
        exact hn
      obtain ⟨u, hu⟩ := List.length_eq_one.mp hlen
      have huF : u ∈ (scene_node_for_each_node 0 0 tree).filter
          (fun w => scan_intersects (output_box so) w) := by
        rw [hu]
        simp
      have huV : u ∈ scene_node_for_each_node 0 0 tree := List.mem_of_mem_filter huF
      have huScan : scan_intersects (output_box so) u = true := by
        have := List.of_mem_filter huF
        simpa using this
      rcases hnode : (scanout_check_data tree so).node with _ | nd
      · constructor
        · intro hmem
          exact absurd hmem (by simp)
        · rintro ⟨_, v, hI, hbox, _⟩
          obtain ⟨_, hall⟩ := check_fold_node_none (output_box so)
            (scene_node_for_each_node 0 0 tree) none 0
            (by unfold scanout_check_data at hnode; exact hnode)
          have hvu : v = u := by
            rw [hI] at hu
            injection hu with h1 _
          exact absurd ⟨huScan, by rw [← hvu]; exact hbox⟩ (hall u huV)
      · obtain h | habs := check_fold_node_mem (output_box so)
          (scene_node_for_each_node 0 0 tree) none 0 nd
          (by unfold scanout_check_data at hnode; exact hnode)
        swap
        · exact absurd habs (by simp)
        obtain ⟨w, hwV, hwScan, hwEq, hndw⟩ := h
        have hwu : w = u := by
          have hwF : w ∈ (scene_node_for_each_node 0 0 tree).filter
              (fun x => scan_intersects (output_box so) x) :=
            List.mem_filter.mpr ⟨hwV, by simp [hwScan]⟩
          rw [hu] at hwF
          simpa using hwF
        rw [hwu] at hwEq hndw
        rcases hnd : nd with ⟨hh, cs⟩ | ⟨hh, f⟩ | ⟨hh, sb⟩
        · constructor
          · intro hmem
            exact absurd hmem (by simp)
          · rintro ⟨_, v, hI, _, h', sb', buf', hv, _⟩
            have hvu : v = u := by
              rw [hI] at hu
              injection hu with h1 _
            have hu1 : u.1 = SceneNode.tree hh cs := by rw [← hndw, hnd]
            rw [hvu, hu1] at hv
            exact SceneNode.noConfusion hv
        · constructor
          · intro hmem
            exact absurd hmem (by simp)
          · rintro ⟨_, v, hI, _, h', sb', buf', hv, _⟩
            have hvu : v = u := by
              rw [hI] at hu
              injection hu with h1 _
            have hu1 : u.1 = SceneNode.rect hh f := by rw [← hndw, hnd]
            rw [hvu, hu1] at hv
            exact SceneNode.noConfusion hv
        · have hu1 : u.1 = SceneNode.buffer hh sb := by rw [← hndw, hnd]
          show ScanAct.attach_buffer ∈ (scene_output_scanout_checked sb so oracle).2 ↔ _
          unfold scene_output_scanout_checked
          rcases hbuf : sb.buffer with _ | buf0
          · constructor
            · intro hmem
              exact absurd hmem (by simp)
            · rintro ⟨_, v, hI, _, h', sb', buf', hv, hbuf', _⟩
              have hvu : v = u := by
                rw [hI] at hu
                injection hu with h1 _
              rw [hvu, hu1] at hv
              injection hv with _ hsb
              rw [← hsb, hbuf] at hbuf'
              exact Option.noConfusion hbuf'
          · by_cases hsrc : fbox_empty_val sb.srcBox = false
            · rw [if_pos hsrc]
              constructor
              · intro hmem
                exact absurd hmem (by simp)
              · rintro ⟨_, v, hI, _, h', sb', buf', hv, _, hempty, _⟩
                have hvu : v = u := by
                  rw [hI] at hu
                  injection hu with h1 _
                rw [hvu, hu1] at hv
                injection hv with _ hsb
                rw [← hsb] at hempty
                rw [hempty] at hsrc
                exact absurd hsrc (by simp)
            · rw [if_neg hsrc]
              by_cases htr : sb.transform ≠ so.transform
              · rw [if_pos htr]
                constructor
                · intro hmem
                  exact absurd hmem (by simp)
                · rintro ⟨_, v, hI, _, h', sb', buf', hv, _, _, htrv⟩
                  have hvu : v = u := by
                    rw [hI] at hu
                    injection hu with h1 _
                  rw [hvu, hu1] at hv
                  injection hv with _ hsb
                  rw [← hsb] at htrv
                  exact absurd htrv htr
              · rw [if_neg htr]
                push_neg at htr
                have hempty : fbox_empty_val sb.srcBox = true := by
                  rcases hb : fbox_empty_val sb.srcBox with _ | _
                  · exact absurd hb hsrc
                  · rfl
                constructor
                · intro _
                  exact ⟨hdbg, u, hu, hwEq, hh, sb, buf0, hu1, hbuf, hempty, htr⟩
                · intro _
                  by_cases htest : oracle.test_ok = false
                  · rw [if_pos htest]
                    simp
                  · rw [if_neg htest]
                    simp

theorem checked_count_present (sb : SceneBuffer) (so : SceneOutput) (oracle : ScanOracle) :
    (scene_output_scanout_checked sb so oracle).2.count ScanAct.output_present =
      if ScanAct.attach_buffer ∈ (scene_output_scanout_checked sb so oracle).2 ∧
          oracle.test_ok = true then 1 else 0 := by
  unfold scene_output_scanout_checked
  rcases hbuf : sb.buffer with _ | buf
  · simp
  · by_cases hsrc : fbox_empty_val sb.srcBox = false
    · rw [if_pos hsrc]
      simp
    · rw [if_neg hsrc]
      by_cases htr : sb.transform ≠ so.transform
      · rw [if_pos htr]
        simp
      · rw [if_neg htr]
        by_cases htest : oracle.test_ok = false
        · rw [if_pos htest]
          simp [htest, List.count_cons]
        · rw [if_neg htest]
          have ht : oracle.test_ok = true := by
            rcases h : oracle.test_ok with _ | _
            · exact absurd h htest
            · rfl
          simp [ht, List.count_cons]

/-- Claim C5 (amended): in the scan-out path, output_present is emitted
exactly once iff the path is taken (the buffer is attached) and the
output test succeeds; the emission happens before the commit call, so
it also occurs when the subsequent commit fails, and it never occurs
when scan-out is rejected or the test fails. -/
theorem c5_present_iff_attach_and_test (dbg : DebugDamageOption) (tree : SceneNode)
    (so : SceneOutput) (oracle : ScanOracle) :
    (scene_output_scanout dbg tree so oracle).2.count ScanAct.output_present =
      if ScanAct.attach_buffer ∈ (scene_output_scanout dbg tree so oracle).2 ∧
          oracle.test_ok = true then 1 else 0 := by
  unfold scene_output_scanout
  by_cases h1 : dbg = DebugDamageOption.damage_highlight
  · rw [if_pos h1]
    simp
  · rw [if_neg h1]
    by_cases h2 : (scanout_check_data tree so).n ≠ 1
    · rw [if_pos h2]
      simp
    · rw [if_neg h2]
      rcases hnd : (scanout_check_data tree so).node with _ | nd
      · simp
      · rcases nd with ⟨hh, cs⟩ | ⟨hh, f⟩ | ⟨hh, sb⟩
        · simp
        · simp
        · show (scene_output_scanout_checked sb so oracle).2.count ScanAct.output_present =
            if ScanAct.attach_buffer ∈ (scene_output_scanout_checked sb so oracle).2 ∧
                oracle.test_ok = true then 1 else 0
          exact checked_count_present sb so oracle

/-- Counterexample to claim C5 as stated: a full-screen buffer node, a
passing test but a failing commit. The attach/test/commit sequence
fails (the function returns false and the composited path will run),
yet output_present has been emitted once from the scan-out path,
because the signal fires before wlr_output_commit is called. -/
theorem c5_present_despite_failed_commit :
    ((scene_output_scanout DebugDamageOption.damage_none
        (SceneNode.tree ⟨0, 0, 0, true⟩
          [SceneNode.buffer ⟨1, 0, 0, true⟩
            { buffer := some ⟨1, 1920, 1080⟩, texture := none, srcBox := fbox_zero,
              dstWidth := 0, dstHeight := 0, transform := 0,
              activeOutputs := 0, primaryOutput := none }])
        ⟨0, 0, 0, 1920, 1080, 0⟩ ⟨true, false⟩).2.count ScanAct.output_present = 1) ∧
    ((scene_output_scanout DebugDamageOption.damage_none
        (SceneNode.tree ⟨0, 0, 0, true⟩
          [SceneNode.buffer ⟨1, 0, 0, true⟩
            { buffer := some ⟨1, 1920, 1080⟩, texture := none, srcBox := fbox_zero,
              dstWidth := 0, dstHeight := 0, transform := 0,
              activeOutputs := 0, primaryOutput := none }])
        ⟨0, 0, 0, 1920, 1080, 0⟩ ⟨true, false⟩).1 = false) := by
  decide

/-- The id of the destroy signal an action carries, if it is one. -/
def destroy_id : DestroyAct → Option Nat
  | DestroyAct.destroy_signal i => some i
  | _ => none

/-- The node id any destroy action refers to. -/
def destroy_act_id : DestroyAct → Nat
  | DestroyAct.damage_whole i => i
  | DestroyAct.destroy_signal i => i
  | DestroyAct.output_leave i _ => i
  | DestroyAct.free i => i

theorem destroy_buffer_leaves_eq (outs : List SceneOutput) (id active : Nat) :
    destroy_buffer_leaves outs id active = outs.filterMap (fun o =>
      if active.testBit o.index = true then some (DestroyAct.output_leave id o) else none) := by
  unfold destroy_buffer_leaves
  congr 1
  funext o
  rcases h : active.testBit o.index with _ | _ <;> simp [and_one_shift_ne_zero, h]

theorem destroy_buffer_leaves_mem (outs : List SceneOutput) (id active : Nat) (a : DestroyAct) :
    a ∈ destroy_buffer_leaves outs id active →
      ∃ o ∈ outs, a = DestroyAct.output_leave id o ∧ active.testBit o.index = true := by
  rw [destroy_buffer_leaves_eq]
  intro h
  obtain ⟨o, ho, hf⟩ := List.mem_filterMap.mp h
  rcases hb : active.testBit o.index with _ | _
  · rw [hb] at hf
    simp at hf
  · rw [hb] at hf
    simp at hf
    exact ⟨o, ho, hf.symm, hb⟩

theorem destroy_buffer_leaves_count (outs : List SceneOutput)
    (hOuts : (outs.map SceneOutput.index).Nodup) (id active : Nat)
    {o : SceneOutput} (ho : o ∈ outs) :
    (destroy_buffer_leaves outs id active).count (DestroyAct.output_leave id o) =
      if active.testBit o.index = true then 1 else 0 := by
  induction outs with
  | nil => exact absurd ho (by simp)
  | cons x xs ih =>
    rw [List.map_cons, List.nodup_cons] at hOuts
    rw [destroy_buffer_leaves_eq, List.filterMap_cons]
    by_cases hxo : o = x
    · subst hxo
      have hz : (destroy_buffer_leaves xs id active).count (DestroyAct.output_leave id o) = 0 := by
        rw [List.count_eq_zero]
        intro hmem
        obtain ⟨o', ho', he, _⟩ := destroy_buffer_leaves_mem xs id active _ hmem
        injection he with _ h2
        rw [h2] at hOuts
        exact hOuts.1 (List.mem_map.mpr ⟨o', ho', rfl⟩)
      rw [destroy_buffer_leaves_eq] at hz
      rcases hb : active.testBit o.index with _ | _ <;> simp [hb, hz, List.count_cons]
    · have hmem : o ∈ xs := by
        rcases List.mem_cons.mp ho with h | h
        · exact absurd h hxo
        · exact h
      have hih := ih hOuts.2 hmem
      rw [destroy_buffer_leaves_eq] at hih
      have hne : ¬ (DestroyAct.output_leave id o = DestroyAct.output_leave id x) := by
        simp [hxo]
      rcases hb : active.testBit x.index with _ | _ <;>
        simp [hb, hih, List.count_cons, hne]

mutual
/-- Every action in a destroy trace refers to an id of the subtree. -/
theorem destroy_trace_ids : ∀ (outs : List SceneOutput) (n : SceneNode),
    ∀ a ∈ wlr_scene_node_destroy outs n, destroy_act_id a ∈ preorder_ids n
  | outs, SceneNode.buffer h sb => by
    intro a ha
    simp only [wlr_scene_node_destroy, List.mem_cons, List.mem_append,
      List.mem_singleton] at ha
    rcases ha with rfl | rfl | hl | rfl | habs
    · simp [destroy_act_id, preorder_ids]
    · simp [destroy_act_id, preorder_ids]
    · obtain ⟨o, _, he, _⟩ := destroy_buffer_leaves_mem outs h.id sb.activeOutputs a hl
      subst he
      simp [destroy_act_id, preorder_ids]
    · simp [destroy_act_id, preorder_ids]
    · simp at habs
  | outs, SceneNode.rect h f => by
    intro a ha
    simp only [wlr_scene_node_destroy, List.mem_cons, List.mem_singleton,
      List.not_mem_nil, or_false] at ha
    rcases ha with rfl | rfl | rfl <;> simp [destroy_act_id, preorder_ids]
  | outs, SceneNode.tree h cs => by
    intro a ha
    simp only [wlr_scene_node_destroy, List.mem_cons, List.mem_append,
      List.mem_singleton] at ha
    rcases ha with rfl | rfl | hl | rfl | habs
    · simp [destroy_act_id, preorder_ids]
    · simp [destroy_act_id, preorder_ids]
    · have := destroy_trace_ids_list outs cs a hl
      simp only [preorder_ids, List.mem_cons]
      exact Or.inr this
    · simp [destroy_act_id, preorder_ids]
    · simp at habs
/-- List version of `destroy_trace_ids`. -/
theorem destroy_trace_ids_list : ∀ (outs : List SceneOutput) (l : List SceneNode),
    ∀ a ∈ wlr_scene_node_destroy_list outs l, destroy_act_id a ∈ preorder_ids_list l
  | outs, [] => by
    intro a ha
    simp [wlr_scene_node_destroy_list] at ha
  | outs, c :: cs => by
    intro a ha
    simp only [wlr_scene_node_destroy_list, List.mem_append] at ha
    simp only [preorder_ids_list, List.mem_append]
    rcases ha with h | h
    · exact Or.inl (destroy_trace_ids outs c a h)
    · exact Or.inr (destroy_trace_ids_list outs cs a h)
end

mutual
/-- A buffer node of a subtree contributes its id to the pre-order list. -/
theorem buffer_mem_preorder : ∀ (n : SceneNode) (h : NodeHeader) (sb : SceneBuffer),
    SceneNode.buffer h sb ∈ subtree_nodes n → h.id ∈ preorder_ids n
  | SceneNode.buffer h' sb', h, sb => by
    intro hmem
    simp only [subtree_nodes, List.mem_singleton] at hmem
    injection hmem with h1 _
    subst h1
    simp [preorder_ids]
  | SceneNode.rect h' f, h, sb => by
    intro hmem
    simp only [subtree_nodes, List.mem_singleton] at hmem
    exact SceneNode.noConfusion hmem
  | SceneNode.tree h' cs, h, sb => by
    intro hmem
    simp only [subtree_nodes, List.mem_cons] at hmem
    rcases hmem with he | hmem
    · exact SceneNode.noConfusion he
    · simp only [preorder_ids, List.mem_cons]
      exact Or.inr (buffer_mem_preorder_list cs h sb hmem)
/-- List version of `buffer_mem_preorder`. -/
theorem buffer_mem_preorder_list : ∀ (l : List SceneNode) (h : NodeHeader) (sb : SceneBuffer),
    SceneNode.buffer h sb ∈ subtree_nodes_list l → h.id ∈ preorder_ids_list l
  | [], h, sb => by
    intro hmem
    simp [subtree_nodes_list] at hmem
  | c :: cs, h, sb => by
    intro hmem
    simp only [subtree_nodes_list, List.mem_append] at hmem
    simp only [preorder_ids_list, List.mem_append]
    rcases hmem with hm | hm
    · exact Or.inl (buffer_mem_preorder c h sb hm)
    · exact Or.inr (buffer_mem_preorder_list cs h sb hm)
end

mutual
/-- The destroy signals of a destroy trace, in order, are exactly the
pre-order id listing of the subtree: a node's destroy signal fires
before those of its children. -/
theorem destroy_signals_preorder : ∀ (outs : List SceneOutput) (n : SceneNode),
    (wlr_scene_node_destroy outs n).filterMap destroy_id = preorder_ids n
  | outs, SceneNode.buffer h sb => by
    have hleaves : (destroy_buffer_leaves outs h.id sb.activeOutputs).filterMap destroy_id = [] := by
      rw [List.filterMap_eq_nil_iff]
      intro a ha
      obtain ⟨o, _, he, _⟩ := destroy_buffer_leaves_mem outs h.id sb.activeOutputs a ha
      subst he
      rfl
    simp [wlr_scene_node_destroy, List.filterMap_cons, List.filterMap_append,
      destroy_id, hleaves, preorder_ids]
  | outs, SceneNode.rect h f => by
    simp [wlr_scene_node_destroy, List.filterMap_cons, destroy_id, preorder_ids]
  | outs, SceneNode.tree h cs => by
    have hmid := destroy_signals_preorder_list outs cs
    simp [wlr_scene_node_destroy, List.filterMap_cons, List.filterMap_append,
      destroy_id, preorder_ids, hmid]
/-- List version of `destroy_signals_preorder`. -/
theorem destroy_signals_preorder_list : ∀ (outs : List SceneOutput) (l : List SceneNode),
    (wlr_scene_node_destroy_list outs l).filterMap destroy_id = preorder_ids_list l
  | outs, [] => by
    simp [wlr_scene_node_destroy_list, preorder_ids_list]
  | outs, c :: cs => by
    simp [wlr_scene_node_destroy_list, List.filterMap_append, preorder_ids_list,
      destroy_signals_preorder outs c, destroy_signals_preorder_list outs cs]
end

mutual
/-- The actions of a destroy trace that concern one buffer node of the
subtree (under distinct ids): its whole-node damage, then its destroy
signal, then one output_leave per active output in outputs-list order,
and only then its free. -/
theorem destroy_filter_buffer : ∀ (outs : List SceneOutput) (n : SceneNode),
    (preorder_ids n).Nodup → ∀ (h : NodeHeader) (sb : SceneBuffer),
    SceneNode.buffer h sb ∈ subtree_nodes n →
    (wlr_scene_node_destroy outs n).filter (fun a => destroy_act_id a = h.id) =
      DestroyAct.damage_whole h.id :: DestroyAct.destroy_signal h.id ::
        (destroy_buffer_leaves outs h.id sb.activeOutputs ++ [DestroyAct.free h.id])
  | outs, SceneNode.buffer h' sb' => by
    intro _ h sb hmem
    simp only [subtree_nodes, List.mem_singleton] at hmem
    injection hmem with h1 h2
    subst h1
    subst h2
    apply List.filter_eq_self.mpr
    intro a ha
    simp only [wlr_scene_node_destroy, List.mem_cons, List.mem_append,
      List.mem_singleton] at ha
    rcases ha with rfl | rfl | hl | rfl | habs
    · simp [destroy_act_id]
    · simp [destroy_act_id]
    · obtain ⟨o, _, he, _⟩ := destroy_buffer_leaves_mem outs _ _ a hl
      subst he
      simp [destroy_act_id]
    · simp [destroy_act_id]
    · simp at habs
  | outs, SceneNode.rect h' f => by
    intro _ h sb hmem
    simp only [subtree_nodes, List.mem_singleton] at hmem
    exact SceneNode.noConfusion hmem
  | outs, SceneNode.tree h' cs => by
    intro hNodup h sb hmem
    simp only [subtree_nodes, List.mem_cons] at hmem
    rcases hmem with he | hmem
    · exact SceneNode.noConfusion he
    · simp only [preorder_ids, List.nodup_cons] at hNodup
      have hid : h.id ∈ preorder_ids_list cs := buffer_mem_preorder_list cs h sb hmem
      have hne : ¬ (h'.id = h.id) := by
        intro heq
        exact hNodup.1 (heq ▸ hid)
      have hmid := destroy_filter_buffer_list outs cs hNodup.2 h sb hmem
      simp only [wlr_scene_node_destroy, List.filter_cons, List.filter_append]
      rw [hmid]
      simp [destroy_act_id, hne]
/-- List version of `destroy_filter_buffer`. -/
theorem destroy_filter_buffer_list : ∀ (outs : List SceneOutput) (l : List SceneNode),
    (preorder_ids_list l).Nodup → ∀ (h : NodeHeader) (sb : SceneBuffer),
    SceneNode.buffer h sb ∈ subtree_nodes_list l →
    (wlr_scene_node_destroy_list outs l).filter (fun a => destroy_act_id a = h.id) =
      DestroyAct.damage_whole h.id :: DestroyAct.destroy_signal h.id ::
        (destroy_buffer_leaves outs h.id sb.activeOutputs ++ [DestroyAct.free h.id])
  | outs, [] => by
    intro _ h sb hmem
    simp [subtree_nodes_list] at hmem
  | outs, c :: cs => by
    intro hNodup h sb hmem
    simp only [preorder_ids_list] at hNodup
    rw [List.nodup_append] at hNodup
    obtain ⟨hnc, hncs, hdisj⟩ := hNodup
    simp only [subtree_nodes_list, List.mem_append] at hmem
    simp only [wlr_scene_node_destroy_list, List.filter_append]
    rcases hmem with hm | hm
    · have hidc : h.id ∈ preorder_ids c := buffer_mem_preorder c h sb hm
      have hz : (wlr_scene_node_destroy_list outs cs).filter
          (fun a => destroy_act_id a = h.id) = [] := by
        rw [List.filter_eq_nil_iff]
        intro a ha
        have hina := destroy_trace_ids_list outs cs a ha
        simp only [decide_eq_true_eq]
        intro heq
        exact hdisj hidc (heq ▸ hina)
      rw [destroy_filter_buffer outs c hnc h sb hm, hz, List.append_nil]
    · have hidcs : h.id ∈ preorder_ids_list cs := buffer_mem_preorder_list cs h sb hm
      have hz : (wlr_scene_node_destroy outs c).filter
          (fun a => destroy_act_id a = h.id) = [] := by
        rw [List.filter_eq_nil_iff]
        intro a ha
        have hina := destroy_trace_ids outs c a ha
        simp only [decide_eq_true_eq]
        intro heq
        exact hdisj (heq ▸ hina) hidcs
      rw [hz, destroy_filter_buffer_list outs cs hncs h sb hm, List.nil_append]
end

theorem count_eq_count_filter {α : Type} [DecidableEq α] (l : List α) (p : α → Bool)
    (a : α) (h : p a = true) : l.count a = (l.filter p).count a := by
  induction l with
  | nil => simp
  | cons x xs ih =>
    rw [List.filter_cons]
    by_cases hx : x = a
    · subst hx
      rw [if_pos h]
      simp [List.count_cons, ih]
    · have hxa : ¬ (a = x) := fun hh => hx hh.symm
      by_cases hpx : p x = true
      · rw [if_pos hpx]
        simp [List.count_cons, hxa, ih]
      · rw [if_neg hpx]
        simp [List.count_cons, hxa, ih]

/-- Claim C6: destroying a subtree fires each node's destroy signal
before its children are torn down — the destroy signals in the trace
are exactly the pre-order id listing — and for every destroyed buffer
node, output_leave fires exactly once per bit set in its
active_outputs, after that node's destroy signal and before the node
is freed (the per-node action subsequence is damage, destroy signal,
the leaves in outputs-list order, free). -/
theorem c6_destroy_preorder_and_leave_once (outs : List SceneOutput) (n : SceneNode)
    (hIds : (preorder_ids n).Nodup)
    (hOuts : (outs.map SceneOutput.index).Nodup) :
    ((wlr_scene_node_destroy outs n).filterMap destroy_id = preorder_ids n) ∧
    (∀ h sb, SceneNode.buffer h sb ∈ subtree_nodes n →
      ((wlr_scene_node_destroy outs n).filter (fun a => destroy_act_id a = h.id) =
        DestroyAct.damage_whole h.id :: DestroyAct.destroy_signal h.id ::
          (destroy_buffer_leaves outs h.id sb.activeOutputs ++ [DestroyAct.free h.id])) ∧
      (∀ o ∈ outs, (wlr_scene_node_destroy outs n).count (DestroyAct.output_leave h.id o) =
        if sb.activeOutputs.testBit o.index = true then 1 else 0)) := by
  refine ⟨destroy_signals_preorder outs n, ?_⟩
  intro h sb hmem
  have hfilter := destroy_filter_buffer outs n hIds h sb hmem
  refine ⟨hfilter, ?_⟩
  intro o ho
  have hp : (fun a => decide (destroy_act_id a = h.id)) (DestroyAct.output_leave h.id o) = true := by
    simp [destroy_act_id]
  rw [count_eq_count_filter (wlr_scene_node_destroy outs n)
    (fun a => decide (destroy_act_id a = h.id)) (DestroyAct.output_leave h.id o) hp, hfilter]
  have hcnt := destroy_buffer_leaves_count outs hOuts h.id sb.activeOutputs ho
  have hne1 : DestroyAct.output_leave h.id o ≠ DestroyAct.damage_whole h.id := by simp
  have hne2 : DestroyAct.output_leave h.id o ≠ DestroyAct.destroy_signal h.id := by simp
  have hne3 : DestroyAct.output_leave h.id o ≠ DestroyAct.free h.id := by simp
  simp [List.count_cons, List.count_append, hcnt, hne1, hne2, hne3]

/-- Witness for C6 at a concrete input: a tree with a buffer child and
a rect child; the destroy signals appear in pre-order. -/
theorem c6_destroy_preorder_and_leave_once_witness :
    (wlr_scene_node_destroy [⟨0, 0, 0, 1920, 1080, 0⟩]
      (SceneNode.tree ⟨0, 0, 0, true⟩
        [SceneNode.buffer ⟨1, 0, 0, true⟩
          { buffer := some ⟨1, 100, 100⟩, texture := none, srcBox := fbox_zero,
            dstWidth := 0, dstHeight := 0, transform := 0,
            activeOutputs := 1, primaryOutput := none },
         SceneNode.rect ⟨2, 5, 5, true⟩ ⟨4, 4, (0, 0, 0, 0)⟩])).filterMap destroy_id =
      preorder_ids
        (SceneNode.tree ⟨0, 0, 0, true⟩
          [SceneNode.buffer ⟨1, 0, 0, true⟩
            { buffer := some ⟨1, 100, 100⟩, texture := none, srcBox := fbox_zero,
              dstWidth := 0, dstHeight := 0, transform := 0,
              activeOutputs := 1, primaryOutput := none },
           SceneNode.rect ⟨2, 5, 5, true⟩ ⟨4, 4, (0, 0, 0, 0)⟩]) :=
  (c6_destroy_preorder_and_leave_once [⟨0, 0, 0, 1920, 1080, 0⟩]
    (SceneNode.tree ⟨0, 0, 0, true⟩
      [SceneNode.buffer ⟨1, 0, 0, true⟩
        { buffer := some ⟨1, 100, 100⟩, texture := none, srcBox := fbox_zero,
          dstWidth := 0, dstHeight := 0, transform := 0,
          activeOutputs := 1, primaryOutput := none },
       SceneNode.rect ⟨2, 5, 5, true⟩ ⟨4, 4, (0, 0, 0, 0)⟩])
    (by decide) (by decide)).1

theorem count_map_pair_eq (id : Nat) (l : List BufEvent) (e : BufEvent) :
    (l.map (fun x => (id, x))).count (id, e) = l.count e := by
  induction l with
  | nil => simp
  | cons x xs ih =>
    by_cases hx : e = x
    · subst hx
      simp [List.count_cons, ih]
    · have h1 : ¬ ((id, e) = (id, x)) := by simp [hx]
      simp [List.count_cons, ih, hx, h1]

theorem count_map_pair_ne (id id' : Nat) (l : List BufEvent) (e : BufEvent) (hne : id' ≠ id) :
    (l.map (fun x => (id, x))).count (id', e) = 0 := by
  rw [List.count_eq_zero]
  intro hmem
  obtain ⟨x, _, hx⟩ := List.mem_map.mp hmem
  injection hx with h1 _
  exact hne h1.symm

mutual
/-- Every tagged event emitted by the recursive update walk carries the
id of a buffer node of the subtree. -/
theorem update_event_ids : ∀ (lx ly : Int) (outs : List SceneOutput) (ig : Option Nat)
    (n : SceneNode), ∀ p ∈ (scene_node_update_outputs_rec lx ly outs ig n).2,
    p.1 ∈ (scene_buffers lx ly n).map (fun b => b.1)
  | lx, ly, outs, ig, SceneNode.buffer h sb => by
    intro p hp
    simp only [scene_node_update_outputs_rec] at hp
    obtain ⟨x, _, hx⟩ := List.mem_map.mp hp
    simp [scene_buffers, ← hx]
  | lx, ly, outs, ig, SceneNode.rect h f => by
    intro p hp
    simp [scene_node_update_outputs_rec] at hp
  | lx, ly, outs, ig, SceneNode.tree h cs => by
    intro p hp
    simp only [scene_node_update_outputs_rec] at hp
    simp only [scene_buffers]
    exact update_event_ids_list lx ly outs ig cs p hp
/-- List version of `update_event_ids`. -/
theorem update_event_ids_list : ∀ (lx ly : Int) (outs : List SceneOutput) (ig : Option Nat)
    (l : List SceneNode), ∀ p ∈ (scene_node_update_outputs_list lx ly outs ig l).2,
    p.1 ∈ (scene_buffers_list lx ly l).map (fun b => b.1)
  | lx, ly, outs, ig, [] => by
    intro p hp
    simp [scene_node_update_outputs_list] at hp
  | lx, ly, outs, ig, c :: cs => by
    intro p hp
    simp only [scene_node_update_outputs_list, List.mem_append] at hp
    simp only [scene_buffers_list, List.map_append, List.mem_append]
    rcases hp with h | h
    · exact Or.inl (update_event_ids _ _ outs ig c p h)
    · exact Or.inr (update_event_ids_list lx ly outs ig cs p h)
end

mutual
/-- Under distinct buffer ids, the number of events the tree-wide update
emits for one buffer node equals the number the per-buffer
recomputation emits for it at its absolute position. -/
theorem update_count : ∀ (lx ly : Int) (outs : List SceneOutput) (ig : Option Nat)
    (n : SceneNode), ((scene_buffers lx ly n).map (fun b => b.1)).Nodup →
    ∀ (id : Nat) (sb : SceneBuffer) (bu bv : Int), (id, sb, bu, bv) ∈ scene_buffers lx ly n →
    ∀ e : BufEvent,
    (scene_node_update_outputs_rec lx ly outs ig n).2.count (id, e) =
      (scene_buffer_update_outputs sb bu bv outs ig).2.count e
  | lx, ly, outs, ig, SceneNode.buffer h sb0 => by
    intro _ id sb bu bv hmem e
    simp only [scene_buffers, List.mem_singleton] at hmem
    obtain ⟨h1, h2, h3, h4⟩ : id = h.id ∧ sb = sb0 ∧ bu = lx ∧ bv = ly := by
      simpa [Prod.ext_iff] using hmem
    subst h1
    subst h2
    subst h3
    subst h4
    simp only [scene_node_update_outputs_rec]
    exact count_map_pair_eq h.id _ e
  | lx, ly, outs, ig, SceneNode.rect h f => by
    intro _ id sb bu bv hmem e
    simp [scene_buffers] at hmem
  | lx, ly, outs, ig, SceneNode.tree h cs => by
    intro hNodup id sb bu bv hmem e
    simp only [scene_buffers] at hNodup hmem
    simp only [scene_node_update_outputs_rec]
    exact update_count_list lx ly outs ig cs hNodup id sb bu bv hmem e
/-- List version of `update_count`. -/
theorem update_count_list : ∀ (lx ly : Int) (outs : List SceneOutput) (ig : Option Nat)
    (l : List SceneNode), ((scene_buffers_list lx ly l).map (fun b => b.1)).Nodup →
    ∀ (id : Nat) (sb : SceneBuffer) (bu bv : Int),
    (id, sb, bu, bv) ∈ scene_buffers_list lx ly l →
    ∀ e : BufEvent,
    (scene_node_update_outputs_list lx ly outs ig l).2.count (id, e) =
      (scene_buffer_update_outputs sb bu bv outs ig).2.count e
  | lx, ly, outs, ig, [] => by
    intro _ id sb bu bv hmem e
    simp [scene_buffers_list] at hmem
  | lx, ly, outs, ig, c :: cs => by
    intro hNodup id sb bu bv hmem e
    simp only [scene_buffers_list, List.map_append] at hNodup
    rw [List.nodup_append] at hNodup
    obtain ⟨hnc, hncs, hdisj⟩ := hNodup
    simp only [scene_buffers_list, List.mem_append] at hmem
    simp only [scene_node_update_outputs_list, List.count_append]
    rcases hmem with hm | hm
    · have hidc : id ∈ (scene_buffers (lx + (nodeHeader c).x) (ly + (nodeHeader c).y) c).map
          (fun b => b.1) := List.mem_map.mpr ⟨(id, sb, bu, bv), hm, rfl⟩
      have hz : (scene_node_update_outputs_list lx ly outs ig cs).2.count (id, e) = 0 := by
        rw [List.count_eq_zero]
        intro hmem2
        exact hdisj hidc (update_event_ids_list lx ly outs ig cs _ hmem2)
      rw [update_count _ _ outs ig c hnc id sb bu bv hm e, hz, Nat.add_zero]
    · have hidcs : id ∈ (scene_buffers_list lx ly cs).map (fun b => b.1) :=
        List.mem_map.mpr ⟨(id, sb, bu, bv), hm, rfl⟩
      have hz : (scene_node_update_outputs_rec (lx + (nodeHeader c).x) (ly + (nodeHeader c).y)
          outs ig c).2.count (id, e) = 0 := by
        rw [List.count_eq_zero]
        intro hmem2
        exact hdisj (update_event_ids _ _ outs ig c _ hmem2) hidcs
      rw [update_count_list lx ly outs ig cs hncs id sb bu bv hm e, hz, Nat.zero_add]
end

theorem count_buf_event_act (l : List (Nat × BufEvent)) (id : Nat) (o : SceneOutput) :
    (l.map buf_event_act).count (CreateAct.buf_enter id o) = l.count (id, BufEvent.enter o) := by
  induction l with
  | nil => simp
  | cons p ps ih =>
    rcases p with ⟨i, e⟩
    rcases e with o' | o'
    · by_cases h : i = id ∧ o' = o
      · obtain ⟨rfl, rfl⟩ := h
        simp [buf_event_act, List.count_cons, ih]
      · have hA : ¬ (CreateAct.buf_enter id o = CreateAct.buf_enter i o') := by
          intro hc
          injection hc with h1 h2
          exact h ⟨h1.symm, h2.symm⟩
        have hB : ¬ (((id, BufEvent.enter o) : Nat × BufEvent) = (i, BufEvent.enter o')) := by
          intro hc
          obtain ⟨h1, h2⟩ : id = i ∧ BufEvent.enter o = BufEvent.enter o' := by
            simpa [Prod.ext_iff] using hc
          injection h2 with h3
          exact h ⟨h1.symm, h3.symm⟩
        simp [buf_event_act, List.count_cons, ih, hA, hB]
    · have hA : ¬ (CreateAct.buf_enter id o = CreateAct.buf_leave i o') := by simp
      have hB : ¬ (((id, BufEvent.enter o) : Nat × BufEvent) = (i, BufEvent.leave o')) := by
        intro hc
        obtain ⟨_, h2⟩ : id = i ∧ BufEvent.enter o = BufEvent.leave o' := by
          rw [Prod.ext_iff] at hc
          exact hc
        exact BufEvent.noConfusion h2
      simp [buf_event_act, List.count_cons, ih, hA, hB]

/-- Claim C9: a successful wlr_scene_output_create first adds
whole-output damage for the new scene-output and then recomputes
membership for the entire tree, so every buffer node whose box
intersects the new output receives exactly one output_enter for it. -/
theorem c9_create_damages_and_enters (outs : List SceneOutput) (tree : SceneNode)
    (output : WlrOutput)
    (hSorted : (outs.map SceneOutput.index).Pairwise (· < ·))
    (hBufIds : ((scene_buffers (nodeHeader tree).x (nodeHeader tree).y tree).map
      (fun b => b.1)).Nodup)
    (hOldBits : ∀ p ∈ scene_buffers (nodeHeader tree).x (nodeHeader tree).y tree,
      ∀ i, Nat.testBit (p.2.1).activeOutputs i = true → ∃ o ∈ outs, o.index = i) :
    ∀ res, wlr_scene_output_create outs tree output = some res →
      (res.2.2.2.head? = some (CreateAct.damage_add_whole res.1.index)) ∧
      (∀ id sb bu bv,
        (id, sb, bu, bv) ∈ scene_buffers (nodeHeader tree).x (nodeHeader tree).y tree →
        intersectsOut (scene_buffer_box sb bu bv) res.1 = true →
        res.2.2.2.count (CreateAct.buf_enter id res.1) = 1) := by
  intro res hres
  obtain ⟨a', b', c', d', e', f'⟩ :=
    scene_output_insert_spec output outs 0 hSorted (fun o _ => Nat.zero_le _)
  unfold wlr_scene_output_create at hres
  by_cases hlt : (scene_output_insert output 0 outs).1 < 64
  swap
  · rw [if_neg hlt] at hres
    exact absurd hres (by simp)
  rw [if_pos hlt] at hres
  obtain rfl := (Option.some_inj.mp hres).symm
  constructor
  · rfl
  · intro id sb bu bv hmem hint
    have hNodup' : ((scene_output_insert output 0 outs).2.map SceneOutput.index).Nodup :=
      d'.imp (fun hab => Nat.ne_of_lt hab)
    have hmemO : mk_scene_output (scene_output_insert output 0 outs).1 output ∈
        (scene_output_insert output 0 outs).2 :=
      (e' _).mpr (Or.inl rfl)
    have hA : ¬ (CreateAct.buf_enter id
        (mk_scene_output (scene_output_insert output 0 outs).1 output) =
        CreateAct.damage_add_whole (scene_output_insert output 0 outs).1) := by simp
    show (CreateAct.damage_add_whole (scene_output_insert output 0 outs).1 ::
      (scene_node_update_outputs_rec (nodeHeader tree).x (nodeHeader tree).y
        (scene_output_insert output 0 outs).2 none tree).2.map buf_event_act).count
      (CreateAct.buf_enter id (mk_scene_output (scene_output_insert output 0 outs).1 output)) = 1
    have hA2 : ¬ ((CreateAct.damage_add_whole (scene_output_insert output 0 outs).1 ==
        CreateAct.buf_enter id
          (mk_scene_output (scene_output_insert output 0 outs).1 output)) = true) := by
      simp
    rw [List.count_cons, if_neg hA2, Nat.add_zero, count_buf_event_act,
      update_count (nodeHeader tree).x (nodeHeader tree).y
        (scene_output_insert output 0 outs).2 none tree hBufIds id sb bu bv hmem,
      update_outputs_snd,
      pass2_count_enter sb.activeOutputs _ _ hNodup' hmemO]
    have hnew : (pass1 (scene_buffer_box sb bu bv) none
        (scene_output_insert output 0 outs).2).active_outputs.testBit
        (mk_scene_output (scene_output_insert output 0 outs).1 output).index = true :=
      (pass1_testBit _ none _ _).mpr
        ⟨mk_scene_output (scene_output_insert output 0 outs).1 output, hmemO,
          by simp, rfl, hint⟩
    have hold : sb.activeOutputs.testBit
        (mk_scene_output (scene_output_insert output 0 outs).1 output).index = false := by
      rcases hb : sb.activeOutputs.testBit
          (mk_scene_output (scene_output_insert output 0 outs).1 output).index with _ | _
      · rfl
      · obtain ⟨o, ho, hoidx⟩ := hOldBits (id, sb, bu, bv) hmem _ hb
        exact absurd hoidx (b' o ho)
    rw [if_pos ⟨hnew, hold⟩]

/-- Witness for C9 at a concrete input: creating the first scene-output
over a tree holding one 10×10 buffer at (5, 5) emits exactly one
output_enter for the new output, whose whole-output damage comes first. -/
theorem c9_create_damages_and_enters_witness :
    ∃ res, wlr_scene_output_create []
      (SceneNode.tree ⟨0, 0, 0, true⟩
        [SceneNode.buffer ⟨1, 5, 5, true⟩
          { buffer := some ⟨1, 10, 10⟩, texture := none, srcBox := fbox_zero,
            dstWidth := 0, dstHeight := 0, transform := 0,
            activeOutputs := 0, primaryOutput := none }]) ⟨100, 100, 0⟩ = some res ∧
      res.2.2.2.count (CreateAct.buf_enter 1 res.1) = 1 := by
  have h := c9_create_damages_and_enters []
    (SceneNode.tree ⟨0, 0, 0, true⟩
      [SceneNode.buffer ⟨1, 5, 5, true⟩
        { buffer := some ⟨1, 10, 10⟩, texture := none, srcBox := fbox_zero,
          dstWidth := 0, dstHeight := 0, transform := 0,
          activeOutputs := 0, primaryOutput := none }]) ⟨100, 100, 0⟩
    (by decide) (by decide)
    (by
      intro p hp i hi
      have hp' : p = (1,
          { buffer := some ⟨1, 10, 10⟩, texture := none, srcBox := fbox_zero,
            dstWidth := 0, dstHeight := 0, transform := 0,
            activeOutputs := 0, primaryOutput := none }, 5, 5) := by
        simpa [scene_buffers, scene_buffers_list, nodeHeader] using hp
      rw [hp'] at hi
      rw [show ((1,
          { buffer := some ⟨1, 10, 10⟩, texture := none, srcBox := fbox_zero,
            dstWidth := 0, dstHeight := 0, transform := 0,
            activeOutputs := 0, primaryOutput := none }, 5, 5) :
          Nat × SceneBuffer × Int × Int).2.1.activeOutputs = 0 from rfl,
        Nat.zero_testBit] at hi
      exact absurd hi (by simp))
  have hcreate : wlr_scene_output_create []
      (SceneNode.tree ⟨0, 0, 0, true⟩
        [SceneNode.buffer ⟨1, 5, 5, true⟩
          { buffer := some ⟨1, 10, 10⟩, texture := none, srcBox := fbox_zero,
            dstWidth := 0, dstHeight := 0, transform := 0,
            activeOutputs := 0, primaryOutput := none }]) ⟨100, 100, 0⟩ =
      some (⟨0, 0, 0, 100, 100, 0⟩, [⟨0, 0, 0, 100, 100, 0⟩],
        SceneNode.tree ⟨0, 0, 0, true⟩
          [SceneNode.buffer ⟨1, 5, 5, true⟩
            { buffer := some ⟨1, 10, 10⟩, texture := none, srcBox := fbox_zero,
              dstWidth := 0, dstHeight := 0, transform := 0,
              activeOutputs := 1, primaryOutput := some ⟨0, 0, 0, 100, 100, 0⟩ }],
        [CreateAct.damage_add_whole 0,
         CreateAct.buf_enter 1 ⟨0, 0, 0, 100, 100, 0⟩]) := rfl
  refine ⟨_, hcreate, ?_⟩
  refine (h _ hcreate).2 1
    { buffer := some ⟨1, 10, 10⟩, texture := none, srcBox := fbox_zero,
      dstWidth := 0, dstHeight := 0, transform := 0,
      activeOutputs := 0, primaryOutput := none } 5 5 (by decide) (by decide)
